import Mathlib

/-!
Verification development for the Discord media-downloader bot
(`discord_media_downloader/bot.py`).

The embedding translates, from the source:
  * the media classifier (`IMAGE_REGEX` / `VIDEO_REGEX`, `is_image`, `is_video`);
  * the file-name helpers (`safe_string`, `format_date`, extension extraction);
  * the history and recovery stores (`ScanHistory`, `ScanRecovery`) as
    insertion-ordered association lists mirroring Python dicts;
  * the page fetchers (`get_messages_from_point`, `get_messages_since_time`);
  * the analysis loop (`analyze_messages_with_recovery`);
  * the resume path (`resume_scanning_process`), the scan command
    (`handle_scan` up to the point where fetching starts) and the
    download aggregation (`download_media` / `process_download`).

Strings are modelled over their character lists; machine integers are
`Nat` / `Int` (no overflow is reachable in the modelled code paths);
Python dicts are insertion-ordered association lists; Python sets of
URLs are duplicate-free lists with insertion order (only membership is
ever observed by the program).  Character classes (`str.lower`,
`str.isdigit`, `str.isalnum`, `str.isspace`, regex `\d`) are modelled
on their ASCII meaning; every string handled by the code paths under
study is ASCII.
-/

/-! ### Characters -/

/-- ASCII lower-casing, the effect of Python `str.lower()` on ASCII text. -/
def toLowerChar (c : Char) : Char :=
  if 65 ≤ c.toNat ∧ c.toNat ≤ 90 then Char.ofNat (c.toNat + 32) else c

/-- Lower-case a whole character list. -/
def lowerData (l : List Char) : List Char := l.map toLowerChar

/-- ASCII digit, the model of regex `\d` and `str.isdigit`. -/
def isDigitChar (c : Char) : Bool := 48 ≤ c.toNat && c.toNat ≤ 57

/-- ASCII lower-case letter. -/
def isLowerAlphaChar (c : Char) : Bool := 97 ≤ c.toNat && c.toNat ≤ 122

/-- ASCII upper-case letter. -/
def isUpperAlphaChar (c : Char) : Bool := 65 ≤ c.toNat && c.toNat ≤ 90

/-- Characters admitted by the regex character class `[a-z0-9_\-.]`
(the file-name segment of `IMAGE_REGEX` / `VIDEO_REGEX`). -/
def allowedChar (c : Char) : Bool :=
  isLowerAlphaChar c || isDigitChar c || c = '_' || c = '-' || c = '.'

/-- ASCII model of Python `str.isalnum` (used by `safe_string`). -/
def isAlnumChar (c : Char) : Bool :=
  isLowerAlphaChar c || isUpperAlphaChar c || isDigitChar c

/-- ASCII model of Python `str.isspace` (used by `safe_string`). -/
def isSpaceChar (c : Char) : Bool :=
  c = ' ' || c = '\t' || c = '\n' || c = '\x0b' || c = '\x0c' || c = '\r'

/-! ### The classifier

`IMAGE_REGEX` is
`https:\/\/cdn\.discordapp\.com\/attachments\/\d*\/\d*\/([a-z0-9\_\-\.]*)\.(jpg|jpeg|png|gif|bmp|webp)(\?.*)?$`
and `VIDEO_REGEX` is the same with extensions `mp4|avi|mov|mkv|webm|flv`;
`is_image` / `is_video` apply `re.match` to the lower-cased URL.

The matcher below reproduces `re.match` semantics for exactly this regex
shape.  `\d*\/` is deterministic (a digit run followed by a mandatory
slash admits only the maximal-run split), so the two digit segments are
consumed greedily; the file-name part `([a-z0-9_\-.]*)\.(ext…)(\?.*)?$`
genuinely backtracks (`.` belongs to the character class), which
`fnameScan` models by trying, at every `.`, both the separator reading
and the class-member reading.  `.` in `(\?.*)?` does not match a newline
and `$` also matches just before a single trailing newline, hence
`dotStarEnd` / `optQueryEnd`. -/

/-- Consume an exact literal from the front of a string, the semantics of
a regex literal: `dropLit p s = some r` iff `s = p ++ r`. -/
def dropLit : List Char → List Char → Option (List Char)
  | [], s => some s
  | _ :: _, [] => none
  | c :: p, c' :: s => if c = c' then dropLit p s else none

/-- Matching of `.*$` in Python (no DOTALL): a newline-free run, optionally
closed by a single final newline (`$` matches before a trailing newline). -/
def dotStarEnd : List Char → Bool
  | [] => true
  | c :: rest => if c = '\n' then rest.isEmpty else dotStarEnd rest

/-- Matching of `(\?.*)?$`: either the end of the string (possibly a lone
trailing newline), or a `?` followed by `.*$`. -/
def optQueryEnd : List Char → Bool
  | [] => true
  | c :: rest => if c = '?' then dotStarEnd rest else c = '\n' && rest.isEmpty

/-- Matching of `(e₁|e₂|…)(\?.*)?$` for a list of literal alternatives. -/
def extScan (exts : List (List Char)) (s : List Char) : Bool :=
  exts.any fun e =>
    match dropLit e s with
    | some r => optQueryEnd r
    | none => false

/-- Matching of `([a-z0-9_\-.]*)\.(e₁|…)(\?.*)?$`: at each position either
close the capture group at a `.` and read an extension, or extend the
capture group by one class character. -/
def fnameScan (exts : List (List Char)) : List Char → Bool
  | [] => false
  | c :: rest =>
    (if c = '.' then extScan exts rest else false) || (allowedChar c && fnameScan exts rest)

/-- The literal prefix `https://cdn.discordapp.com/attachments/` of both regexes. -/
def cdnLit : List Char := "https://cdn.discordapp.com/attachments/".data

/-- Full matcher for the shared regex shape: literal prefix, `\d*\/\d*\/`,
then the file-name/extension/query tail. -/
def matchMedia (exts : List (List Char)) (s : List Char) : Bool :=
  match dropLit cdnLit s with
  | none => false
  | some s1 =>
    match s1.dropWhile isDigitChar with
    | [] => false
    | c :: s2 =>
      if c = '/' then
        match s2.dropWhile isDigitChar with
        | [] => false
        | c' :: s3 => if c' = '/' then fnameScan exts s3 else false
      else false

/-- The image extension alternatives of `IMAGE_REGEX`, in source order. -/
def imageExts : List String := ["jpg", "jpeg", "png", "gif", "bmp", "webp"]

/-- The video extension alternatives of `VIDEO_REGEX`, in source order. -/
def videoExts : List String := ["mp4", "avi", "mov", "mkv", "webm", "flv"]

/-- Source `is_image`: `re.match(IMAGE_REGEX, str(content).lower())`. -/
def is_image (content : String) : Bool :=
  matchMedia (imageExts.map String.data) (lowerData content.data)

/-- Source `is_video`: `re.match(VIDEO_REGEX, str(content).lower())`. -/
def is_video (content : String) : Bool :=
  matchMedia (videoExts.map String.data) (lowerData content.data)

/-- The three media categories of the analysis loop. -/
inductive MediaCat where
  | image
  | video
  | other
deriving DecidableEq, Repr

/-- The category branch of `analyze_messages_with_recovery`
(`if is_image … elif is_video … else …`), the spec's `classify`. -/
def classify (url : String) : MediaCat :=
  if is_image url then .image else if is_video url then .video else .other

/-! ### Date-times

A `datetime` is modelled by its calendar/clock fields plus an optional
time zone.  Python compares naive datetimes by lexicographic comparison
of their fields; `.replace(tzinfo=None)` keeps the wall-clock fields and
drops the zone, which is exactly what `get_messages_since_time` does
before comparing. -/

structure PyDateTime where
  year : Nat
  month : Nat
  day : Nat
  hour : Nat
  minute : Nat
  second : Nat
  microsecond : Nat
  tzinfo : Option Int
deriving DecidableEq, Repr

/-- The wall-clock field tuple of a datetime. -/
def dtFields (d : PyDateTime) : List Nat :=
  [d.year, d.month, d.day, d.hour, d.minute, d.second, d.microsecond]

/-- Lexicographic comparison of equal-length field lists. -/
def lexLe : List Nat → List Nat → Bool
  | [], _ => true
  | _ :: _, [] => false
  | x :: xs, y :: ys => if x < y then true else if y < x then false else lexLe xs ys

/-- Python `datetime.replace(tzinfo=None)`. -/
def stripTz (d : PyDateTime) : PyDateTime := { d with tzinfo := none }

/-- Comparison of two (naive) datetimes: lexicographic on the fields. -/
def dtLe (a b : PyDateTime) : Bool := lexLe (dtFields a) (dtFields b)

/-- Decimal digits of a natural number (via `Nat.repr`). -/
def natStr (n : Nat) : String := toString n

/-- Zero-pad to two characters, the effect of `strftime` `%m %d %H %M %S`. -/
def pad2 (n : Nat) : String :=
  if n < 10 then "0" ++ natStr n else natStr n

/-- Zero-pad to four characters, the effect of `f"{n:04d}"` (and of
`strftime` `%Y` for the years that occur). -/
def pad4 (n : Nat) : String :=
  if n < 10 then "000" ++ natStr n
  else if n < 100 then "00" ++ natStr n
  else if n < 1000 then "0" ++ natStr n
  else natStr n

/-- Source `format_date`: `strftime("%Y-%m-%d_%H-%M-%S")`. -/
def format_date (d : PyDateTime) : String :=
  pad4 d.year ++ "-" ++ pad2 d.month ++ "-" ++ pad2 d.day ++ "_" ++
    pad2 d.hour ++ "-" ++ pad2 d.minute ++ "-" ++ pad2 d.second

/-! ### `safe_string` and extension extraction -/

/-- First pass of `safe_string`: keep alphanumerics and `-`/`_`/`.`,
turn whitespace into `_`, drop everything else. -/
def safeKeep (l : List Char) : List Char :=
  l.foldr
    (fun c acc =>
      if isAlnumChar c || c = '-' || c = '_' || c = '.' then c :: acc
      else if isSpaceChar c then '_' :: acc
      else acc) []

/-- Second pass of `safe_string`: `re.sub(r"_+", "_", …)`, collapsing every
run of underscores to a single one. -/
def collapseUnders : List Char → List Char
  | [] => []
  | c :: rest =>
    if c = '_' then
      match collapseUnders rest with
      | '_' :: t => '_' :: t
      | t => '_' :: t
    else c :: collapseUnders rest

/-- Python `str.strip("_")`. -/
def stripUnders (l : List Char) : List Char :=
  ((l.dropWhile (· = '_')).reverse.dropWhile (· = '_')).reverse

/-- Source `safe_string`: sanitise to the safe file-name alphabet, collapse
underscore runs, strip outer underscores, truncate to 50 characters. -/
def safe_string (text : String) : String :=
  ⟨(stripUnders (collapseUnders (safeKeep text.data))).take 50⟩

/-- The extension computed in the analysis loop:
`url.rsplit(".", maxsplit=1)[-1]` followed by `.split("?")[0]`. -/
def fileExtension (url : String) : String :=
  ⟨((url.data.reverse.takeWhile (· ≠ '.')).reverse).takeWhile (· ≠ '?')⟩

/-! ### Messages and attachments (the shape consumed from the platform) -/

structure PyAttachment where
  url : String
  size : Nat
deriving DecidableEq, Repr

structure PyMessage where
  id : Nat
  authorBot : Bool
  authorName : String
  createdAt : PyDateTime
  attachments : List PyAttachment
deriving DecidableEq, Repr

/-! ### Python dicts as insertion-ordered association lists -/

/-- `d[k] = v`: replace in place if the key exists, else append. -/
def dictInsert {α β : Type} [DecidableEq α] (k : α) (v : β) : List (α × β) → List (α × β)
  | [] => [(k, v)]
  | (k', v') :: rest => if k = k' then (k, v) :: rest else (k', v') :: dictInsert k v rest

/-- `d.get(k)` / `k in d`. -/
def dictGet {α β : Type} [DecidableEq α] (k : α) : List (α × β) → Option β
  | [] => none
  | (k', v') :: rest => if k = k' then some v' else dictGet k rest

/-- `del d[k]` (no-op when the key is absent; the callers guard with `in`). -/
def dictErase {α β : Type} [DecidableEq α] (k : α) : List (α × β) → List (α × β)
  | [] => []
  | (k', v') :: rest => if k = k' then rest else (k', v') :: dictErase k rest

/-- `s.add(x)` on a Python set modelled as a duplicate-free list. -/
def setAdd {α : Type} [DecidableEq α] (s : List α) (x : α) : List α :=
  if x ∈ s then s else s ++ [x]

/-- `s.update(xs)` on a Python set: insert every element not yet present.
The program only ever observes membership of these sets, so the
insertion order chosen here is immaterial. -/
def setUnion {α : Type} [DecidableEq α] (s : List α) (xs : List α) : List α :=
  xs.foldl setAdd s

/-! ### `ScanHistory` (the History Store)

`self.history` is a dict keyed by `str(channel_id)`; `str` is injective
on channel ids, so the key is modelled as the id itself. -/

structure HistoryRecord where
  scanned_urls : List String
  last_scan : Option PyDateTime
  total_scans : Nat
deriving DecidableEq, Repr

def ScanHistoryState := List (Nat × HistoryRecord)

instance : DecidableEq ScanHistoryState := by
  unfold ScanHistoryState
  infer_instance

/-- Source `ScanHistory.get_scanned_urls`. -/
def get_scanned_urls (h : ScanHistoryState) (channel_id : Nat) : List String :=
  match dictGet channel_id h with
  | some r => r.scanned_urls
  | none => []

/-- Source `ScanHistory.get_last_scan_time` (the stored ISO string parses
back to the stored datetime; the parse-failure branch is unreachable for
records written by this program). -/
def get_last_scan_time (h : ScanHistoryState) (channel_id : Nat) : Option PyDateTime :=
  match dictGet channel_id h with
  | some r => r.last_scan
  | none => none

/-- Source `ScanHistory.add_scanned_urls`, with `now` the value of
`datetime.now()` at the call. -/
def add_scanned_urls (h : ScanHistoryState) (channel_id : Nat) (urls : List String)
    (now : PyDateTime) : ScanHistoryState :=
  let r :=
    match dictGet channel_id h with
    | some r => r
    | none => { scanned_urls := [], last_scan := none, total_scans := 0 }
  dictInsert channel_id
    { scanned_urls := setUnion [] (r.scanned_urls ++ urls)
      last_scan := some now
      total_scans := r.total_scans + 1 } h

/-- Source `ScanHistory.get_channel_stats`, as the triple
`(total_scanned, last_scan, total_scans)`. -/
def get_channel_stats (h : ScanHistoryState) (channel_id : Nat) :
    Nat × Option PyDateTime × Nat :=
  match dictGet channel_id h with
  | some r => (r.scanned_urls.length, r.last_scan, r.total_scans)
  | none => (0, none, 0)

/-- Source `ScanHistory.clear_channel_history`. -/
def clear_channel_history (h : ScanHistoryState) (channel_id : Nat) : ScanHistoryState :=
  dictErase channel_id h

/-! ### `ScanRecovery` (the Recovery Store) -/

inductive ScanStatus where
  | in_progress
  | completed
deriving DecidableEq, Repr

structure ScanParams where
  limit : Option Nat
  scan_all : Bool
  since_time : Option PyDateTime
deriving DecidableEq, Repr

structure Checkpoint where
  scan_type : String
  start_time : PyDateTime
  scan_params : ScanParams
  status : ScanStatus
  last_processed_message : Option Nat
  processed_count : Nat
  found_media : Nat
deriving DecidableEq, Repr

def ScanRecoveryState := List (Nat × Checkpoint)

instance : DecidableEq ScanRecoveryState := by
  unfold ScanRecoveryState
  infer_instance

/-- Source `ScanRecovery.start_scan_session`. -/
def start_scan_session (r : ScanRecoveryState) (channel_id : Nat) (scan_type : String)
    (start_time : PyDateTime) (scan_params : ScanParams) : ScanRecoveryState :=
  dictInsert channel_id
    { scan_type := scan_type
      start_time := start_time
      scan_params := scan_params
      status := .in_progress
      last_processed_message := none
      processed_count := 0
      found_media := 0 } r

/-- Source `ScanRecovery.update_scan_progress` (a no-op when the channel
has no checkpoint). -/
def update_scan_progress (r : ScanRecoveryState) (channel_id : Nat)
    (message_id : Option Nat) (processed_count found_media : Nat) : ScanRecoveryState :=
  match dictGet channel_id r with
  | none => r
  | some cp =>
    dictInsert channel_id
      { cp with
        last_processed_message := message_id
        processed_count := processed_count
        found_media := found_media } r

/-- Source `ScanRecovery.complete_scan_session`. -/
def complete_scan_session (r : ScanRecoveryState) (channel_id : Nat) : ScanRecoveryState :=
  match dictGet channel_id r with
  | none => r
  | some cp => dictInsert channel_id { cp with status := .completed } r

/-- Source `ScanRecovery.get_interrupted_scan`. -/
def get_interrupted_scan (r : ScanRecoveryState) (channel_id : Nat) : Option Checkpoint :=
  match dictGet channel_id r with
  | some cp => if cp.status = .in_progress then some cp else none
  | none => none

/-- Source `ScanRecovery.clear_recovery_data`. -/
def clear_recovery_data (r : ScanRecoveryState) (channel_id : Nat) : ScanRecoveryState :=
  dictErase channel_id r

/-! ### The analysis loop (`analyze_messages_with_recovery`)

The loop's mutable locals become an explicit state.  `names` is a ghost
log recording every generated file name in assignment order; it changes
no other field and exists only so that theorems can speak about the
sequence of assigned ordinals. -/

structure AnalyzeState where
  images : List (String × String)
  videos : List (String × String)
  others : List (String × String)
  new_urls : List String
  counter : Nat
  found_media : Nat
  names : List String
deriving DecidableEq, Repr

/-- The generated file name
`f"{counter:04d}_{format_date(message.created_at)}_{author}.{file_extension}"`. -/
def mkAttachmentName (m : PyMessage) (counter : Nat) (a : PyAttachment) : String :=
  pad4 counter ++ "_" ++ format_date m.createdAt ++ "_" ++ safe_string m.authorName ++
    "." ++ fileExtension a.url

/-- One iteration of `for attachment in message.attachments`. -/
def stepAttachment (scanned_urls : List String) (scan_all : Bool) (m : PyMessage)
    (st : AnalyzeState) (a : PyAttachment) : AnalyzeState :=
  if !scan_all && a.url ∈ scanned_urls then st
  else
    let name := mkAttachmentName m st.counter a
    let st :=
      { st with
        new_urls := setAdd st.new_urls a.url
        found_media := st.found_media + 1
        names := st.names ++ [name] }
    let st :=
      match classify a.url with
      | .image => { st with images := dictInsert a.url name st.images }
      | .video => { st with videos := dictInsert a.url name st.videos }
      | .other => { st with others := dictInsert a.url name st.others }
    { st with counter := st.counter + 1 }

/-- One iteration of `for message in message_history`:
bump `processed_count`, fold the attachments of a non-bot message with
attachments, and record a progress call on every 10th processed message. -/
def stepMessage (scanned_urls : List String) (scan_all : Bool)
    (acc : AnalyzeState × Nat × List (Option Nat × Nat × Nat)) (m : PyMessage) :
    AnalyzeState × Nat × List (Option Nat × Nat × Nat) :=
  let processed := acc.2.1 + 1
  let st :=
    if !m.attachments.isEmpty && !m.authorBot then
      m.attachments.foldl (stepAttachment scanned_urls scan_all m) acc.1
    else acc.1
  let prog :=
    if processed % 10 = 0 then acc.2.2 ++ [(some m.id, processed, st.found_media)]
    else acc.2.2
  (st, processed, prog)

/-- Everything `analyze_messages_with_recovery` returns or emits: the three
category dicts, the run's new-URL set, the final `counter`,
`processed_count` and `found_media`, the ghost name log, and the list of
`update_scan_progress` calls (message id, processed count, found count)
in call order — the final unconditional call included. -/
structure AnalyzeResult where
  images : List (String × String)
  videos : List (String × String)
  others : List (String × String)
  new_urls : List String
  counter : Nat
  processed_count : Nat
  found_media : Nat
  names : List String
  progress : List (Option Nat × Nat × Nat)
deriving DecidableEq, Repr

/-- Source `analyze_messages_with_recovery` over a fetched message list. -/
def analyze_messages_with_recovery (message_history : List PyMessage)
    (scanned_urls : List String) (scan_all : Bool) (start_counter : Nat) : AnalyzeResult :=
  let init : AnalyzeState :=
    { images := [], videos := [], others := [], new_urls := []
      counter := start_counter + 1, found_media := 0, names := [] }
  let out := message_history.foldl (stepMessage scanned_urls scan_all) (init, start_counter, [])
  { images := out.1.images
    videos := out.1.videos
    others := out.1.others
    new_urls := out.1.new_urls
    counter := out.1.counter
    processed_count := out.2.1
    found_media := out.1.found_media
    names := out.1.names
    progress := out.2.2 ++ [((message_history.getLast?).map PyMessage.id, out.2.1, out.1.found_media)] }

/-! ### Page fetchers

Both fetchers iterate `channel.history(limit=2·max)` — a newest-first
stream truncated to twice the effective maximum — skipping forward past
`last_message_id` when one is given.  The channel's stream is passed as
an explicit newest-first list. -/

/-- The `limit or 500` idiom: `None` and `0` are falsy. -/
def maxMessagesOf (limit : Option Nat) : Nat :=
  match limit with
  | none => 500
  | some n => if n = 0 then 500 else n

/-- The `if limit and count >= limit` idiom. -/
def limitTruthy (limit : Option Nat) : Bool :=
  match limit with
  | none => false
  | some n => n ≠ 0

/-- Loop body of `get_messages_from_point` (count-anchored resume fetch). -/
def fromPointLoop (last_message_id : Option Nat) (limit : Nat) :
    List PyMessage → Bool → Nat → List PyMessage
  | [], _, _ => []
  | m :: rest, found_start, n =>
    if !found_start then
      if some m.id = last_message_id then fromPointLoop last_message_id limit rest true n
      else fromPointLoop last_message_id limit rest false n
    else
      if n + 1 ≥ limit then [m]
      else m :: fromPointLoop last_message_id limit rest true (n + 1)

/-- Source `get_messages_from_point`:
request `limit * 2` raw messages, skip until `last_message_id` (inclusive)
when given, then collect up to `limit` messages. -/
def get_messages_from_point (stream : List PyMessage) (last_message_id : Option Nat)
    (limit : Nat) : List PyMessage :=
  fromPointLoop last_message_id limit (stream.take (limit * 2)) last_message_id.isNone 0

/-- The timestamp test of `get_messages_since_time`: the message is kept
while `message.created_at.replace(tzinfo=None)` is strictly after the
zone-normalised `since_time`. -/
def afterCutoff (since_time : PyDateTime) (m : PyMessage) : Bool :=
  let since_naive := if (since_time.tzinfo).isSome then stripTz since_time else since_time
  !dtLe (stripTz m.createdAt) since_naive

/-- Loop body of `get_messages_since_time` (time-anchored fetch). -/
def sinceTimeLoop (since_time : PyDateTime) (limit : Option Nat) (last_message_id : Option Nat) :
    List PyMessage → Bool → Nat → List PyMessage
  | [], _, _ => []
  | m :: rest, found_start, n =>
    if !found_start then
      if some m.id = last_message_id then sinceTimeLoop since_time limit last_message_id rest true n
      else sinceTimeLoop since_time limit last_message_id rest false n
    else
      if !afterCutoff since_time m then []
      else
        if limitTruthy limit && n + 1 ≥ limit.getD 0 then [m]
        else m :: sinceTimeLoop since_time limit last_message_id rest true (n + 1)

/-- Source `get_messages_since_time`:
request `(limit or 500) * 2` raw messages, skip until `last_message_id`
(inclusive) when given, then collect messages strictly after
`since_time`, stopping at the first message at-or-before the cutoff or —
when `limit` is truthy — after `limit` collected messages. -/
def get_messages_since_time (stream : List PyMessage) (since_time : PyDateTime)
    (limit : Option Nat) (last_message_id : Option Nat) : List PyMessage :=
  sinceTimeLoop since_time limit last_message_id
    (stream.take (maxMessagesOf limit * 2)) last_message_id.isNone 0

/-! ### The resume path (`resume_scanning_process`)

The method runs against the channel stream and the two stores.  Report
rendering, size aggregation and the interactive download prompt are
user-interface output and do not feed back into the modelled state; they
are omitted.  The analysis loop's `update_scan_progress` calls are
replayed against the recovery store in call order. -/

/-- Replay a list of progress calls against the recovery store. -/
def applyProgress (channel_id : Nat) (calls : List (Option Nat × Nat × Nat))
    (r : ScanRecoveryState) : ScanRecoveryState :=
  calls.foldl (fun rc c => update_scan_progress rc channel_id c.1 c.2.1 c.2.2) r

/-- Result of a resume run: whether a fetch was issued (and what it
returned), whether the analysis loop ran (and its result), the final
recovery and history stores, and whether the run escaped with an
exception (the `None - int` / missing-`since_time` paths). -/
structure ResumeRun where
  fetched : Option (List PyMessage)
  analysis : Option AnalyzeResult
  recovery : ScanRecoveryState
  history : ScanHistoryState
  errored : Bool

/-- Common tail of `resume_scanning_process` once `message_history` is
known: empty history completes immediately; otherwise analyse, merge any
new URLs into the history store, and complete the checkpoint. -/
def resumeWith (recovery : ScanRecoveryState) (history : ScanHistoryState)
    (channel_id : Nat) (cp : Checkpoint) (scanned_urls : List String)
    (now : PyDateTime) (message_history : List PyMessage) : ResumeRun :=
  if message_history.isEmpty then
    { fetched := some message_history
      analysis := none
      recovery := complete_scan_session recovery channel_id
      history := history
      errored := false }
  else
    let res := analyze_messages_with_recovery message_history scanned_urls
      cp.scan_params.scan_all cp.processed_count
    let recovery := applyProgress channel_id res.progress recovery
    let history :=
      if (!res.images.isEmpty || !res.videos.isEmpty || !res.others.isEmpty)
          && !res.new_urls.isEmpty then
        add_scanned_urls history channel_id res.new_urls now
      else history
    { fetched := some message_history
      analysis := some res
      recovery := complete_scan_session recovery channel_id
      history := history
      errored := false }

/-- Source `resume_scanning_process`, for the checkpoint `cp` found by
`get_interrupted_scan`.  `stream` is the channel's newest-first message
stream and `now` the wall clock at the end-of-run history write. -/
def resume_scanning_process (stream : List PyMessage) (recovery : ScanRecoveryState)
    (history : ScanHistoryState) (channel_id : Nat) (cp : Checkpoint)
    (now : PyDateTime) : ResumeRun :=
  let scanned_urls := get_scanned_urls history channel_id
  let last_message_id := cp.last_processed_message
  if cp.scan_type = "time_based" then
    match cp.scan_params.since_time with
    | none =>
      { fetched := none, analysis := none, recovery := recovery, history := history
        errored := true }
    | some since_time =>
      resumeWith recovery history channel_id cp scanned_urls now
        (get_messages_since_time stream since_time cp.scan_params.limit last_message_id)
  else
    match cp.scan_params.limit with
    | none =>
      { fetched := none, analysis := none, recovery := recovery, history := history
        errored := true }
    | some original_limit =>
      let remaining_limit : Int := (original_limit : Int) - (cp.processed_count : Int)
      if remaining_limit ≤ 0 then
        { fetched := none
          analysis := none
          recovery := complete_scan_session recovery channel_id
          history := history
          errored := false }
      else
        resumeWith recovery history channel_id cp scanned_urls now
          (get_messages_from_point stream last_message_id remaining_limit.toNat)

/-! ### `handle_scan` up to the start of fetching

Argument parsing, the admin/lock/recovery guards, the time-anchored
history check and the `start_scan_session` call are modelled; the
subsequent `perform_scan` stage (fetch + analysis) only runs when the
outcome is `started`, so a rejected command provably issues no fetch and
leaves both stores untouched. -/

/-- Python `str.isdigit` on an ASCII string. -/
def isDigitStr (s : String) : Bool :=
  !s.data.isEmpty && s.data.all isDigitChar

/-- Python `int` on a digit string. -/
def digitsToNat (s : String) : Nat :=
  s.data.foldl (fun n c => n * 10 + (c.toNat - 48)) 0

/-- The argument-parsing loop of `handle_scan` over `command.split()[1:]`,
followed by the default of 5 messages when no mode and no number is
given: returns `(number_of_messages, scan_all, scan_from_last)`. -/
def parseScanArgs (command_parts : List String) : Option Nat × Bool × Bool :=
  let p := (command_parts.drop 1).foldl
    (fun (acc : Option Nat × Bool × Bool) part =>
      if isDigitStr part then (some (min (digitsToNat part) 500), acc.2.1, acc.2.2)
      else if part = "--all" then (acc.1, true, acc.2.2)
      else if part = "--new" then (acc.1, acc.2.1, true)
      else acc)
    (none, false, false)
  if !p.2.1 && !p.2.2 && p.1.isNone then (some 5, p.2.1, p.2.2) else p

/-- Outcome of `handle_scan` before any fetch: the four rejection paths,
or a started session (after which `perform_scan` runs). -/
inductive ScanOutcome where
  | notAdmin
  | alreadyActive
  | unresolvedRecovery
  | noHistory
  | started (scan_type : String) (scan_params : ScanParams)
deriving DecidableEq, Repr

/-- Source `handle_scan` from entry to `start_scan_session`:
returns the outcome and both stores as they stand when fetching would
begin (rejections leave them unchanged). -/
def handle_scan (is_admin active_scan : Bool) (recovery : ScanRecoveryState)
    (history : ScanHistoryState) (channel_id : Nat) (command_parts : List String)
    (now : PyDateTime) : ScanOutcome × ScanRecoveryState × ScanHistoryState :=
  if !is_admin then (.notAdmin, recovery, history)
  else if active_scan then (.alreadyActive, recovery, history)
  else if (get_interrupted_scan recovery channel_id).isSome then
    (.unresolvedRecovery, recovery, history)
  else
    let parsed := parseScanArgs command_parts
    let scan_type := if parsed.2.2 then "time_based" else "number_based"
    if parsed.2.2 then
      match get_last_scan_time history channel_id with
      | none => (.noHistory, recovery, history)
      | some t =>
        let scan_params : ScanParams :=
          { limit := parsed.1, scan_all := parsed.2.1, since_time := some t }
        (.started scan_type scan_params,
          start_scan_session recovery channel_id scan_type now scan_params, history)
    else
      let scan_params : ScanParams :=
        { limit := parsed.1, scan_all := parsed.2.1, since_time := none }
      (.started scan_type scan_params,
        start_scan_session recovery channel_id scan_type now scan_params, history)

/-! ### The download stage (`download_media` / `process_download`)

Each task fetches one URL and writes one file; `download_media` catches
every exception of its own task and returns `False` for it.  The
network/file-system outcome of a single task is an oracle
`DownloadEnv.ok url file_name`; `False` covers both a network error and
a write error, each caught inside that task. -/

structure DownloadEnv where
  ok : String → String → Bool

/-- Source `download_media`: `True` on success, `False` when the fetch or
the write raised (the exception is caught inside the task). -/
def download_media (env : DownloadEnv) (url : String) (file_name : String) : Bool :=
  env.ok url file_name

/-- The task list `process_download` builds for a selection, in build
order (images, then videos, then others). -/
def selectedTasks (selection : String) (images videos others : List (String × String)) :
    List (String × String) :=
  (if selection = "Hình ảnh" || selection = "Tất cả" then images else []) ++
    (if selection = "Video" || selection = "Tất cả" then videos else []) ++
      (if selection = "Media khác" || selection = "Tất cả" then others else [])

/-- The `total_files` accumulator of `process_download`. -/
def totalFiles (selection : String) (images videos others : List (String × String)) : Nat :=
  (if selection = "Hình ảnh" || selection = "Tất cả" then images.length else 0) +
    (if selection = "Video" || selection = "Tất cả" then videos.length else 0) +
      (if selection = "Media khác" || selection = "Tất cả" then others.length else 0)

/-- The per-task results of one `asyncio.gather` invocation, in task
order. -/
def downloadResults (env : DownloadEnv) (selection : String)
    (images videos others : List (String × String)) : List Bool :=
  (selectedTasks selection images videos others).map fun t => download_media env t.1 t.2

/-- Source `process_download`, reduced to its aggregate outcome:
`(successful, total_files)` as reported to the user. -/
def process_download (env : DownloadEnv) (selection : String)
    (images videos others : List (String × String)) : Nat × Nat :=
  ((downloadResults env selection images videos others).count true,
    totalFiles selection images videos others)

/-! ## Shared lemmas about the dict and set embeddings -/

theorem dictGet_insert_self {β : Type} (k : Nat) (v : β) (d : List (Nat × β)) :
    dictGet k (dictInsert k v d) = some v := by
  induction d with
  | nil => simp [dictInsert, dictGet]
  | cons hd tl ih =>
    by_cases h : k = hd.1
    · simp [dictInsert, dictGet, h]
    · simpa [dictInsert, dictGet, h] using ih

theorem dictGet_insert_ne {β : Type} {k k' : Nat} (v : β) (d : List (Nat × β))
    (h : k' ≠ k) : dictGet k' (dictInsert k v d) = dictGet k' d := by
  induction d with
  | nil => simp [dictInsert, dictGet, h]
  | cons hd tl ih =>
    by_cases hk : k = hd.1
    · subst hk
      simp [dictInsert, dictGet, h]
    · by_cases hk' : k' = hd.1
      · simp [dictInsert, dictGet, hk, hk']
      · simpa [dictInsert, dictGet, hk, hk'] using ih

theorem dictGet_erase_ne {β : Type} {k k' : Nat} (d : List (Nat × β))
    (h : k' ≠ k) : dictGet k' (dictErase k d) = dictGet k' d := by
  induction d with
  | nil => simp [dictErase, dictGet]
  | cons hd tl ih =>
    by_cases hk : k = hd.1
    · subst hk
      simp [dictErase, dictGet, h]
    · by_cases hk' : k' = hd.1
      · simp [dictErase, dictGet, hk, hk']
      · simpa [dictErase, dictGet, hk, hk'] using ih

theorem mem_setAdd {α : Type} [DecidableEq α] (s : List α) (x y : α) :
    y ∈ setAdd s x ↔ y ∈ s ∨ y = x := by
  unfold setAdd
  by_cases h : x ∈ s
  · simp only [if_pos h]
    constructor
    · exact Or.inl
    · rintro (hy | rfl)
      · exact hy
      · exact h
  · simp [if_neg h]

theorem mem_setUnion {α : Type} [DecidableEq α] (s xs : List α) (y : α) :
    y ∈ setUnion s xs ↔ y ∈ s ∨ y ∈ xs := by
  induction xs generalizing s with
  | nil => simp [setUnion]
  | cons hd tl ih =>
    show y ∈ setUnion (setAdd s hd) tl ↔ _
    rw [ih, mem_setAdd]
    constructor
    · rintro ((hy | rfl) | hy)
      · exact Or.inl hy
      · exact Or.inr (List.mem_cons_self _ _)
      · exact Or.inr (List.mem_cons_of_mem _ hy)
    · rintro (hy | hy)
      · exact Or.inl (Or.inl hy)
      · rcases List.mem_cons.mp hy with rfl | hy
        · exact Or.inl (Or.inr rfl)
        · exact Or.inr hy

/-! ## C9 — `add_scanned_urls` merges, stamps and counts -/

/-- C9: `recordNewUrls` (`add_scanned_urls`) leaves the channel's seen set
equal to the union of its previous value and the new URLs, sets the
channel's last-scan time to the current time, and increments the
channel's total-scan counter by exactly one.  Growth of `scannedUrls`
across any sequence of calls is immediate from the union shape: the new
seen set contains every member of the old one. -/
theorem add_scanned_urls_union_stamp_count (h : ScanHistoryState) (channel_id : Nat)
    (urls : List String) (now : PyDateTime) :
    (∀ u, u ∈ get_scanned_urls (add_scanned_urls h channel_id urls now) channel_id ↔
        u ∈ get_scanned_urls h channel_id ∨ u ∈ urls) ∧
      get_last_scan_time (add_scanned_urls h channel_id urls now) channel_id = some now ∧
      (get_channel_stats (add_scanned_urls h channel_id urls now) channel_id).2.2 =
        (get_channel_stats h channel_id).2.2 + 1 := by
  unfold add_scanned_urls
  cases hrec : dictGet channel_id h with
  | none =>
    refine ⟨fun u => ?_, ?_, ?_⟩
    · simp only [get_scanned_urls, dictGet_insert_self, hrec, mem_setUnion]
      simp
    · simp [get_last_scan_time, dictGet_insert_self]
    · simp [get_channel_stats, dictGet_insert_self, hrec]
  | some r =>
    refine ⟨fun u => ?_, ?_, ?_⟩
    · simp only [get_scanned_urls, dictGet_insert_self, hrec, mem_setUnion]
      simp [List.mem_append]
    · simp [get_last_scan_time, dictGet_insert_self]
    · simp [get_channel_stats, dictGet_insert_self, hrec]

/-! ## C10 — history-store operations are per-channel framed -/

/-- C10: for distinct channels, `add_scanned_urls` on one channel and
`clear_channel_history` on one channel leave the other channel's stored
record (seen set, last-scan time and scan counter included) unchanged. -/
theorem history_ops_frame (h : ScanHistoryState) (channel_id other_id : Nat)
    (urls : List String) (now : PyDateTime) (hne : other_id ≠ channel_id) :
    dictGet other_id (add_scanned_urls h channel_id urls now) = dictGet other_id h ∧
      dictGet other_id (clear_channel_history h channel_id) = dictGet other_id h := by
  constructor
  · unfold add_scanned_urls
    cases dictGet channel_id h <;> exact dictGet_insert_ne _ _ hne
  · exact dictGet_erase_ne _ hne

/-- Witness for C10 at a concrete two-channel store. -/
theorem history_ops_frame_witness :
    (7 : Nat) ≠ 3 ∧
      dictGet 7 (add_scanned_urls [(3, ⟨["u"], none, 1⟩), (7, ⟨["v"], none, 2⟩)] 3 ["w"]
        ⟨2024, 1, 1, 0, 0, 0, 0, none⟩) = some ⟨["v"], none, 2⟩ ∧
      dictGet 7 (clear_channel_history [(3, ⟨["u"], none, 1⟩), (7, ⟨["v"], none, 2⟩)] 3) =
        some ⟨["v"], none, 2⟩ := by
  have h := history_ops_frame [(3, ⟨["u"], none, 1⟩), (7, ⟨["v"], none, 2⟩)] 3 7 ["w"]
    ⟨2024, 1, 1, 0, 0, 0, 0, none⟩ (by decide)
  exact ⟨by decide, h.1.trans (by decide), h.2.trans (by decide)⟩

/-! ## C8 — per-item download failure isolation and exact aggregation -/

theorem count_true_map {α : Type} (f : α → Bool) (l : List α) :
    (l.map f).count true = l.countP f := by
  induction l with
  | nil => simp
  | cons a t ih => by_cases h : f a <;> simp [List.count_cons, List.countP_cons, h, ih]

theorem selectedTasks_length (selection : String)
    (images videos others : List (String × String)) :
    (selectedTasks selection images videos others).length =
      totalFiles selection images videos others := by
  unfold selectedTasks totalFiles
  by_cases h1 : selection = "Hình ảnh" ∨ selection = "Tất cả" <;>
    by_cases h2 : selection = "Video" ∨ selection = "Tất cả" <;>
      by_cases h3 : selection = "Media khác" ∨ selection = "Tất cả" <;>
        simp_all [List.length_append, Nat.add_assoc]

/-- C8: in `process_download`, each item's failure is confined to its own
task (`download_media` returns `False` instead of raising), so the result
entry of every sibling task is unchanged when one item's outcome changes,
and the reported aggregate is exactly
`(number of succeeded tasks, number of submitted tasks)`. -/
theorem process_download_aggregate (env : DownloadEnv) (selection : String)
    (images videos others : List (String × String)) :
    (process_download env selection images videos others).1 =
        (selectedTasks selection images videos others).countP
          (fun t => download_media env t.1 t.2) ∧
      (process_download env selection images videos others).2 =
        (selectedTasks selection images videos others).length ∧
      ∀ (envA : DownloadEnv) (t0 : String × String),
        (∀ t ∈ selectedTasks selection images videos others,
          t ≠ t0 → envA.ok t.1 t.2 = env.ok t.1 t.2) →
        ∀ (idx : Nat) (t : String × String),
          (selectedTasks selection images videos others).get? idx = some t → t ≠ t0 →
          (downloadResults envA selection images videos others).get? idx =
            (downloadResults env selection images videos others).get? idx := by
  refine ⟨?_, ?_, ?_⟩
  · show (downloadResults env selection images videos others).count true = _
    unfold downloadResults
    exact count_true_map _ _
  · exact (selectedTasks_length selection images videos others).symm
  · intro envA t0 hagree idx t hget hne
    unfold downloadResults
    rw [List.get?_map, List.get?_map, hget]
    simp only [Option.map_some']
    unfold download_media
    rw [hagree t (List.get?_mem hget) hne]

/-- Witness for C8: two images and a video, the network failing on the
second image only; the aggregate reports 2 of 3 and the sibling entries
keep their values. -/
theorem process_download_aggregate_witness :
    (process_download ⟨fun u _ => u ≠ "u2"⟩ "Tất cả" [("u1", "n1"), ("u2", "n2")]
        [("u3", "n3")] []).1 =
        ([("u1", "n1"), ("u2", "n2"), ("u3", "n3")] : List (String × String)).countP
          (fun t => download_media ⟨fun u _ => u ≠ "u2"⟩ t.1 t.2) ∧
      (downloadResults ⟨fun u _ => u ≠ "u2"⟩ "Tất cả" [("u1", "n1"), ("u2", "n2")]
          [("u3", "n3")] []).get? 0 =
        (downloadResults ⟨fun _ _ => true⟩ "Tất cả" [("u1", "n1"), ("u2", "n2")]
          [("u3", "n3")] []).get? 0 := by
  have h := process_download_aggregate ⟨fun _ _ => true⟩ "Tất cả"
    [("u1", "n1"), ("u2", "n2")] [("u3", "n3")] []
  refine ⟨?_, ?_⟩
  · have h2 := process_download_aggregate ⟨fun u _ => u ≠ "u2"⟩ "Tất cả"
      [("u1", "n1"), ("u2", "n2")] [("u3", "n3")] []
    calc (process_download ⟨fun u _ => u ≠ "u2"⟩ "Tất cả" [("u1", "n1"), ("u2", "n2")]
        [("u3", "n3")] []).1
        = (selectedTasks "Tất cả" [("u1", "n1"), ("u2", "n2")] [("u3", "n3")] []).countP
            (fun t => download_media ⟨fun u _ => u ≠ "u2"⟩ t.1 t.2) := h2.1
      _ = _ := by decide
  · exact h.2.2 ⟨fun u _ => u ≠ "u2"⟩ ("u2", "n2") (by decide) 0 ("u1", "n1")
      (by decide) (by decide)

/-! ## C7 — time-anchored scan with no prior history is rejected early -/

/-- C7: a `scan --new` request on a channel with no recorded last-scan
time is rejected (`noHistory`, the spec's `NoHistoryAvailable`) before
`start_scan_session` and before any fetch: the outcome is the rejection
and both stores are returned exactly as they were.  (`perform_scan`, the
only fetching stage, runs only on a `started` outcome.) -/
theorem handle_scan_no_history (recovery : ScanRecoveryState) (history : ScanHistoryState)
    (channel_id : Nat) (command_parts : List String) (now : PyDateTime)
    (hint : get_interrupted_scan recovery channel_id = none)
    (hnew : (parseScanArgs command_parts).2.2 = true)
    (hlast : get_last_scan_time history channel_id = none) :
    handle_scan true false recovery history channel_id command_parts now =
      (.noHistory, recovery, history) := by
  unfold handle_scan
  simp [hint, hnew, hlast]

/-- Witness for C7: `>scan --new` on empty stores. -/
theorem handle_scan_no_history_witness :
    handle_scan true false [] [] 1 ["scan", "--new"] ⟨2024, 1, 1, 0, 0, 0, 0, none⟩ =
      (.noHistory, [], []) :=
  handle_scan_no_history [] [] 1 ["scan", "--new"] ⟨2024, 1, 1, 0, 0, 0, 0, none⟩
    (by decide) (by decide) (by decide)

/-! ## C5 — count-based resume: remaining limit and early completion -/

/-- C5: resuming a `number_based` scan whose checkpoint records an
original limit `L` and a processed count `p` computes the effective
remaining limit `L - p` (as an integer).  When `L - p ≤ 0` the resume
issues no fetch and runs no analysis and immediately flips the channel's
checkpoint to `completed`, leaving the history store untouched; when
`L - p > 0` the fetch is issued with exactly the limit `L - p`. -/
theorem resume_count_based_remaining (stream : List PyMessage)
    (recovery : ScanRecoveryState) (history : ScanHistoryState) (channel_id : Nat)
    (cp : Checkpoint) (now : PyDateTime) (original_limit : Nat)
    (htype : cp.scan_type = "number_based")
    (hlim : cp.scan_params.limit = some original_limit)
    (hcp : dictGet channel_id recovery = some cp) :
    (((original_limit : Int) - (cp.processed_count : Int) ≤ 0 →
        resume_scanning_process stream recovery history channel_id cp now =
          { fetched := none
            analysis := none
            recovery := complete_scan_session recovery channel_id
            history := history
            errored := false } ∧
        dictGet channel_id
            (resume_scanning_process stream recovery history channel_id cp now).recovery =
          some { cp with status := .completed }) ∧
      (0 < (original_limit : Int) - (cp.processed_count : Int) →
        (resume_scanning_process stream recovery history channel_id cp now).fetched =
          some (get_messages_from_point stream cp.last_processed_message
            ((original_limit : Int) - (cp.processed_count : Int)).toNat))) := by
  have htype' : ¬cp.scan_type = "time_based" := by
    rw [htype]
    decide
  constructor
  · intro hle
    have hres : resume_scanning_process stream recovery history channel_id cp now =
        { fetched := none
          analysis := none
          recovery := complete_scan_session recovery channel_id
          history := history
          errored := false } := by
      unfold resume_scanning_process
      simp [htype', hlim, hle]
    refine ⟨hres, ?_⟩
    rw [hres]
    show dictGet channel_id (complete_scan_session recovery channel_id) = _
    unfold complete_scan_session
    rw [hcp]
    exact dictGet_insert_self _ _ _
  · intro hpos
    have hnle : ¬((original_limit : Int) - (cp.processed_count : Int) ≤ 0) := by omega
    unfold resume_scanning_process
    simp only [if_neg htype', hlim, if_neg hnle]
    unfold resumeWith
    split <;> rfl

/-- Witness for C5: one exhausted checkpoint (limit 3, processed 5) and
one with remaining work (limit 3, processed 1). -/
theorem resume_count_based_remaining_witness :
    (resume_scanning_process [] [(9, ⟨"number_based", ⟨2024, 1, 1, 0, 0, 0, 0, none⟩,
          ⟨some 3, false, none⟩, .in_progress, some 4, 5, 2⟩)] [] 9
        ⟨"number_based", ⟨2024, 1, 1, 0, 0, 0, 0, none⟩, ⟨some 3, false, none⟩,
          .in_progress, some 4, 5, 2⟩ ⟨2024, 1, 2, 0, 0, 0, 0, none⟩).fetched = none ∧
      (resume_scanning_process [] [(9, ⟨"number_based", ⟨2024, 1, 1, 0, 0, 0, 0, none⟩,
            ⟨some 3, false, none⟩, .in_progress, some 4, 1, 0⟩)] [] 9
          ⟨"number_based", ⟨2024, 1, 1, 0, 0, 0, 0, none⟩, ⟨some 3, false, none⟩,
            .in_progress, some 4, 1, 0⟩ ⟨2024, 1, 2, 0, 0, 0, 0, none⟩).fetched =
        some (get_messages_from_point [] (some 4) 2) := by
  constructor
  · have h := resume_count_based_remaining [] [(9, ⟨"number_based",
      ⟨2024, 1, 1, 0, 0, 0, 0, none⟩, ⟨some 3, false, none⟩, .in_progress, some 4, 5, 2⟩)]
      [] 9 ⟨"number_based", ⟨2024, 1, 1, 0, 0, 0, 0, none⟩, ⟨some 3, false, none⟩,
        .in_progress, some 4, 5, 2⟩ ⟨2024, 1, 2, 0, 0, 0, 0, none⟩ 3 rfl rfl (by decide)
    rw [(h.1 (by decide)).1]
  · have h := resume_count_based_remaining [] [(9, ⟨"number_based",
      ⟨2024, 1, 1, 0, 0, 0, 0, none⟩, ⟨some 3, false, none⟩, .in_progress, some 4, 1, 0⟩)]
      [] 9 ⟨"number_based", ⟨2024, 1, 1, 0, 0, 0, 0, none⟩, ⟨some 3, false, none⟩,
        .in_progress, some 4, 1, 0⟩ ⟨2024, 1, 2, 0, 0, 0, 0, none⟩ 3 rfl rfl (by decide)
    exact h.2 (by decide)

/-! ## C4 — progress checkpoints: every 10th processed message plus a
final unconditional write -/

/-- The expected in-loop progress calls, projected to
(message id, processed count): starting from `start` already-processed
messages, a call is made after each message that brings the running
processed count to a multiple of 10, carrying that message's id. -/
def progressSpec (start : Nat) : List PyMessage → List (Option Nat × Nat)
  | [] => []
  | m :: rest =>
    (if (start + 1) % 10 = 0 then [(some m.id, start + 1)] else []) ++
      progressSpec (start + 1) rest

theorem fold_progress_proj (s : List String) (a : Bool) (ms : List PyMessage) :
    ∀ (st : AnalyzeState) (processed : Nat) (prog : List (Option Nat × Nat × Nat)),
      ((ms.foldl (stepMessage s a) (st, processed, prog)).2.2).map
          (fun c => (c.1, c.2.1)) =
        prog.map (fun c => (c.1, c.2.1)) ++ progressSpec processed ms := by
  induction ms with
  | nil =>
    intro st processed prog
    simp [progressSpec]
  | cons m rest ih =>
    intro st processed prog
    simp only [List.foldl_cons, stepMessage]
    by_cases h : (processed + 1) % 10 = 0
    · rw [if_pos h, ih]
      simp [progressSpec, h]
    · rw [if_neg h, ih]
      simp [progressSpec, h]

theorem fold_processed_count (s : List String) (a : Bool) (ms : List PyMessage) :
    ∀ (st : AnalyzeState) (processed : Nat) (prog : List (Option Nat × Nat × Nat)),
      (ms.foldl (stepMessage s a) (st, processed, prog)).2.1 = processed + ms.length := by
  induction ms with
  | nil =>
    intro st processed prog
    simp
  | cons m rest ih =>
    intro st processed prog
    simp only [List.foldl_cons, stepMessage]
    rw [ih, List.length_cons]
    omega

/-- C4: over a non-empty fetched sequence, the `update_scan_progress`
calls of the analysis loop are exactly one call per message whose
running processed count is a multiple of 10 (carrying that message's id
and count), followed by one unconditional final call carrying the last
iterated message's id and the total processed count
`start + history.length` — whether or not that total is a multiple
of 10. -/
theorem analyze_progress_calls (history : List PyMessage) (scanned_urls : List String)
    (scan_all : Bool) (start_counter : Nat) (hne : history ≠ []) :
    (analyze_messages_with_recovery history scanned_urls scan_all start_counter).progress.map
        (fun c => (c.1, c.2.1)) =
      progressSpec start_counter history ++
        [(some (history.getLast hne).id, start_counter + history.length)] := by
  unfold analyze_messages_with_recovery
  rw [List.map_append, fold_progress_proj, fold_processed_count]
  rw [List.getLast?_eq_getLast _ hne]
  simp

/-- Witness for C4: eleven messages starting from a fresh counter: one
in-loop call at the 10th message, then the unconditional final call at
total 11. -/
theorem analyze_progress_calls_witness :
    (analyze_messages_with_recovery
          ((List.range 11).map fun k => ⟨k + 1, false, "u", ⟨2024, 1, 1, 0, 0, 0, 0, none⟩, []⟩)
          [] false 0).progress.map (fun c => (c.1, c.2.1)) =
      [(some 10, 10), (some 11, 11)] := by
  have h := analyze_progress_calls
    ((List.range 11).map fun k => ⟨k + 1, false, "u", ⟨2024, 1, 1, 0, 0, 0, 0, none⟩, []⟩)
    [] false 0 (by decide)
  exact h.trans (by decide)

/-! ## C2 / C3 — invariants of the analysis fold -/

/-- The keys of a category dict. -/
def dictKeys (d : List (String × String)) : List String := d.map Prod.fst

theorem mem_dictKeys_insert (k v : String) (d : List (String × String)) (u : String) :
    u ∈ dictKeys (dictInsert k v d) ↔ u = k ∨ u ∈ dictKeys d := by
  induction d with
  | nil => simp [dictKeys, dictInsert]
  | cons hd tl ih =>
    by_cases h : k = hd.1
    · subst h
      simp [dictKeys, dictInsert]
    · simp only [dictKeys, dictInsert, if_neg h, List.map_cons, List.mem_cons]
      rw [show (tl.map Prod.fst = dictKeys tl) from rfl] at *
      constructor
      · rintro (h1 | h2)
        · exact Or.inr (Or.inl h1)
        · rcases (ih.mp h2) with h3 | h4
          · exact Or.inl h3
          · exact Or.inr (Or.inr h4)
      · rintro (h1 | h2 | h3)
        · exact Or.inr (ih.mpr (Or.inl h1))
        · exact Or.inl h2
        · exact Or.inr (ih.mpr (Or.inr h3))

/-- A URL occurring among a message list's attachments, on a non-bot
message (the only attachments the analysis loop examines). -/
def urlOccurs (history : List PyMessage) (u : String) : Prop :=
  ∃ m ∈ history, m.authorBot = false ∧ ∃ x ∈ m.attachments, x.url = u

/-- The complement of the loop's skip test
`if not scan_all and attachment_url in scanned_urls: continue`. -/
def notSkipped (scanned_urls : List String) (scan_all : Bool) (u : String) : Prop :=
  scan_all = true ∨ u ∉ scanned_urls

instance (s : List String) (a : Bool) (u : String) : Decidable (notSkipped s a u) := by
  unfold notSkipped
  infer_instance

theorem skip_test_eq_false (s : List String) (a : Bool) (u : String) :
    ((!a && decide (u ∈ s)) = false) ↔ notSkipped s a u := by
  unfold notSkipped
  cases a <;> by_cases h : u ∈ s <;> simp [h]

/-- The three category buckets of an analysis state, indexed by category. -/
def bucketOf (st : AnalyzeState) : MediaCat → List (String × String)
  | .image => st.images
  | .video => st.videos
  | .other => st.others

theorem stepAttachment_skip (s : List String) (a : Bool) (m : PyMessage)
    (st : AnalyzeState) (x : PyAttachment) (h : (!a && decide (x.url ∈ s)) = true) :
    stepAttachment s a m st x = st := by
  unfold stepAttachment
  rw [if_pos h]

theorem stepAttachment_not_skip (s : List String) (a : Bool) (m : PyMessage)
    (st : AnalyzeState) (x : PyAttachment) (h : (!a && decide (x.url ∈ s)) = false) :
    stepAttachment s a m st x =
      { images := if classify x.url = .image then
          dictInsert x.url (mkAttachmentName m st.counter x) st.images else st.images
        videos := if classify x.url = .video then
          dictInsert x.url (mkAttachmentName m st.counter x) st.videos else st.videos
        others := if classify x.url = .other then
          dictInsert x.url (mkAttachmentName m st.counter x) st.others else st.others
        new_urls := setAdd st.new_urls x.url
        counter := st.counter + 1
        found_media := st.found_media + 1
        names := st.names ++ [mkAttachmentName m st.counter x] } := by
  unfold stepAttachment
  rw [if_neg (by simp [h])]
  rcases hcl : classify x.url <;> simp [hcl]

theorem bucketOf_stepAttachment_not_skip (s : List String) (a : Bool) (m : PyMessage)
    (st : AnalyzeState) (x : PyAttachment) (h : (!a && decide (x.url ∈ s)) = false)
    (cat : MediaCat) :
    bucketOf (stepAttachment s a m st x) cat =
      if classify x.url = cat then
        dictInsert x.url (mkAttachmentName m st.counter x) (bucketOf st cat)
      else bucketOf st cat := by
  rw [stepAttachment_not_skip s a m st x h]
  rcases hcl : classify x.url <;> rcases cat <;> simp [bucketOf, hcl]

theorem attach_fold_bucket_mem (s : List String) (a : Bool) (m : PyMessage)
    (atts : List PyAttachment) (cat : MediaCat) :
    ∀ (st : AnalyzeState) (u : String),
      u ∈ dictKeys (bucketOf (atts.foldl (stepAttachment s a m) st) cat) ↔
        u ∈ dictKeys (bucketOf st cat) ∨
          ((∃ x ∈ atts, x.url = u) ∧ notSkipped s a u ∧ classify u = cat) := by
  induction atts with
  | nil =>
    intro st u
    simp
  | cons x rest ih =>
    intro st u
    rw [List.foldl_cons]
    by_cases hskip : (!a && decide (x.url ∈ s)) = true
    · rw [stepAttachment_skip s a m st x hskip, ih st u]
      have hx : ¬notSkipped s a x.url := by
        rw [← skip_test_eq_false, hskip]
        simp
      constructor
      · rintro (h1 | ⟨⟨y, hy, rfl⟩, hns, hcl⟩)
        · exact Or.inl h1
        · exact Or.inr ⟨⟨y, List.mem_cons_of_mem _ hy, rfl⟩, hns, hcl⟩
      · rintro (h1 | ⟨⟨y, hy, rfl⟩, hns, hcl⟩)
        · exact Or.inl h1
        · rcases List.mem_cons.mp hy with rfl | hy'
          · exact absurd hns hx
          · exact Or.inr ⟨⟨y, hy', rfl⟩, hns, hcl⟩
    · have hskip' : (!a && decide (x.url ∈ s)) = false := by
        revert hskip
        cases (!a && decide (x.url ∈ s)) <;> simp
      have hns_x : notSkipped s a x.url := (skip_test_eq_false s a x.url).mp hskip'
      rw [ih (stepAttachment s a m st x) u,
        bucketOf_stepAttachment_not_skip s a m st x hskip' cat]
      by_cases hc : classify x.url = cat
      · rw [if_pos hc, mem_dictKeys_insert]
        constructor
        · rintro ((rfl | h1) | ⟨⟨y, hy, rfl⟩, hns, hcl⟩)
          · exact Or.inr ⟨⟨x, List.mem_cons_self _ _, rfl⟩, hns_x, hc⟩
          · exact Or.inl h1
          · exact Or.inr ⟨⟨y, List.mem_cons_of_mem _ hy, rfl⟩, hns, hcl⟩
        · rintro (h1 | ⟨⟨y, hy, rfl⟩, hns, hcl⟩)
          · exact Or.inl (Or.inr h1)
          · rcases List.mem_cons.mp hy with rfl | hy'
            · exact Or.inl (Or.inl rfl)
            · exact Or.inr ⟨⟨y, hy', rfl⟩, hns, hcl⟩
      · rw [if_neg hc]
        constructor
        · rintro (h1 | ⟨⟨y, hy, rfl⟩, hns, hcl⟩)
          · exact Or.inl h1
          · exact Or.inr ⟨⟨y, List.mem_cons_of_mem _ hy, rfl⟩, hns, hcl⟩
        · rintro (h1 | ⟨⟨y, hy, rfl⟩, hns, hcl⟩)
          · exact Or.inl h1
          · rcases List.mem_cons.mp hy with rfl | hy'
            · exact absurd hcl hc
            · exact Or.inr ⟨⟨y, hy', rfl⟩, hns, hcl⟩

theorem attach_fold_new_urls_mem (s : List String) (a : Bool) (m : PyMessage)
    (atts : List PyAttachment) :
    ∀ (st : AnalyzeState) (u : String),
      u ∈ (atts.foldl (stepAttachment s a m) st).new_urls ↔
        u ∈ st.new_urls ∨ ((∃ x ∈ atts, x.url = u) ∧ notSkipped s a u) := by
  induction atts with
  | nil =>
    intro st u
    simp
  | cons x rest ih =>
    intro st u
    rw [List.foldl_cons]
    by_cases hskip : (!a && decide (x.url ∈ s)) = true
    · rw [stepAttachment_skip s a m st x hskip, ih st u]
      have hx : ¬notSkipped s a x.url := by
        rw [← skip_test_eq_false, hskip]
        simp
      constructor
      · rintro (h1 | ⟨⟨y, hy, rfl⟩, hns⟩)
        · exact Or.inl h1
        · exact Or.inr ⟨⟨y, List.mem_cons_of_mem _ hy, rfl⟩, hns⟩
      · rintro (h1 | ⟨⟨y, hy, rfl⟩, hns⟩)
        · exact Or.inl h1
        · rcases List.mem_cons.mp hy with rfl | hy'
          · exact absurd hns hx
          · exact Or.inr ⟨⟨y, hy', rfl⟩, hns⟩
    · have hskip' : (!a && decide (x.url ∈ s)) = false := by
        revert hskip
        cases (!a && decide (x.url ∈ s)) <;> simp
      have hns_x : notSkipped s a x.url := (skip_test_eq_false s a x.url).mp hskip'
      rw [ih (stepAttachment s a m st x) u, stepAttachment_not_skip s a m st x hskip']
      show u ∈ setAdd st.new_urls x.url ∨ _ ↔ _
      rw [mem_setAdd]
      constructor
      · rintro ((h1 | rfl) | ⟨⟨y, hy, rfl⟩, hns⟩)
        · exact Or.inl h1
        · exact Or.inr ⟨⟨x, List.mem_cons_self _ _, rfl⟩, hns_x⟩
        · exact Or.inr ⟨⟨y, List.mem_cons_of_mem _ hy, rfl⟩, hns⟩
      · rintro (h1 | ⟨⟨y, hy, rfl⟩, hns⟩)
        · exact Or.inl (Or.inl h1)
        · rcases List.mem_cons.mp hy with rfl | hy'
          · exact Or.inl (Or.inr rfl)
          · exact Or.inr ⟨⟨y, hy', rfl⟩, hns⟩

theorem msg_fold_bucket_mem (s : List String) (a : Bool) (ms : List PyMessage)
    (cat : MediaCat) :
    ∀ (st : AnalyzeState) (processed : Nat) (prog : List (Option Nat × Nat × Nat))
      (u : String),
      u ∈ dictKeys (bucketOf (ms.foldl (stepMessage s a) (st, processed, prog)).1 cat) ↔
        u ∈ dictKeys (bucketOf st cat) ∨
          (urlOccurs ms u ∧ notSkipped s a u ∧ classify u = cat) := by
  induction ms with
  | nil =>
    intro st processed prog u
    simp [urlOccurs]
  | cons m rest ih =>
    intro st processed prog u
    simp only [List.foldl_cons, stepMessage]
    by_cases helig : (!m.attachments.isEmpty && !m.authorBot) = true
    · have hbot : m.authorBot = false := by
        revert helig
        cases m.authorBot <;> simp
      rw [if_pos helig, ih, attach_fold_bucket_mem]
      constructor
      · rintro ((h1 | ⟨hx, hns, hcl⟩) | ⟨⟨mm, hmm, hmb, hx⟩, hns, hcl⟩)
        · exact Or.inl h1
        · exact Or.inr ⟨⟨m, List.mem_cons_self _ _, hbot, hx⟩, hns, hcl⟩
        · exact Or.inr ⟨⟨mm, List.mem_cons_of_mem _ hmm, hmb, hx⟩, hns, hcl⟩
      · rintro (h1 | ⟨⟨mm, hmm, hmb, hx⟩, hns, hcl⟩)
        · exact Or.inl (Or.inl h1)
        · rcases List.mem_cons.mp hmm with rfl | hmm'
          · exact Or.inl (Or.inr ⟨hx, hns, hcl⟩)
          · exact Or.inr ⟨⟨mm, hmm', hmb, hx⟩, hns, hcl⟩
    · have hout : m.attachments.isEmpty = true ∨ m.authorBot = true := by
        revert helig
        cases m.attachments.isEmpty <;> cases m.authorBot <;> simp
      rw [if_neg helig, ih]
      constructor
      · rintro (h1 | ⟨hocc, hns, hcl⟩)
        · exact Or.inl h1
        · rcases hocc with ⟨mm, hmm, hmb, hx⟩
          exact Or.inr ⟨⟨mm, List.mem_cons_of_mem _ hmm, hmb, hx⟩, hns, hcl⟩
      · rintro (h1 | ⟨⟨mm, hmm, hmb, hx⟩, hns, hcl⟩)
        · exact Or.inl h1
        · rcases List.mem_cons.mp hmm with rfl | hmm'
          · rcases hout with hemp | hb
            · rcases hx with ⟨x, hxmem, -⟩
              rw [List.isEmpty_iff] at hemp
              rw [hemp] at hxmem
              exact absurd hxmem (List.not_mem_nil _)
            · rw [hmb] at hb
              exact Bool.noConfusion hb
          · exact Or.inr ⟨⟨mm, hmm', hmb, hx⟩, hns, hcl⟩

theorem msg_fold_new_urls_mem (s : List String) (a : Bool) (ms : List PyMessage) :
    ∀ (st : AnalyzeState) (processed : Nat) (prog : List (Option Nat × Nat × Nat))
      (u : String),
      u ∈ (ms.foldl (stepMessage s a) (st, processed, prog)).1.new_urls ↔
        u ∈ st.new_urls ∨ (urlOccurs ms u ∧ notSkipped s a u) := by
  induction ms with
  | nil =>
    intro st processed prog u
    simp [urlOccurs]
  | cons m rest ih =>
    intro st processed prog u
    simp only [List.foldl_cons, stepMessage]
    by_cases helig : (!m.attachments.isEmpty && !m.authorBot) = true
    · have hbot : m.authorBot = false := by
        revert helig
        cases m.authorBot <;> simp
      rw [if_pos helig, ih, attach_fold_new_urls_mem]
      constructor
      · rintro ((h1 | ⟨hx, hns⟩) | ⟨⟨mm, hmm, hmb, hx⟩, hns⟩)
        · exact Or.inl h1
        · exact Or.inr ⟨⟨m, List.mem_cons_self _ _, hbot, hx⟩, hns⟩
        · exact Or.inr ⟨⟨mm, List.mem_cons_of_mem _ hmm, hmb, hx⟩, hns⟩
      · rintro (h1 | ⟨⟨mm, hmm, hmb, hx⟩, hns⟩)
        · exact Or.inl (Or.inl h1)
        · rcases List.mem_cons.mp hmm with rfl | hmm'
          · exact Or.inl (Or.inr ⟨hx, hns⟩)
          · exact Or.inr ⟨⟨mm, hmm', hmb, hx⟩, hns⟩
    · have hout : m.attachments.isEmpty = true ∨ m.authorBot = true := by
        revert helig
        cases m.attachments.isEmpty <;> cases m.authorBot <;> simp
      rw [if_neg helig, ih]
      constructor
      · rintro (h1 | ⟨⟨mm, hmm, hmb, hx⟩, hns⟩)
        · exact Or.inl h1
        · exact Or.inr ⟨⟨mm, List.mem_cons_of_mem _ hmm, hmb, hx⟩, hns⟩
      · rintro (h1 | ⟨⟨mm, hmm, hmb, hx⟩, hns⟩)
        · exact Or.inl h1
        · rcases List.mem_cons.mp hmm with rfl | hmm'
          · rcases hout with hemp | hb
            · rcases hx with ⟨x, hxmem, -⟩
              rw [List.isEmpty_iff] at hemp
              rw [hemp] at hxmem
              exact absurd hxmem (List.not_mem_nil _)
            · rw [hmb] at hb
              exact Bool.noConfusion hb
          · exact Or.inr ⟨⟨mm, hmm', hmb, hx⟩, hns⟩

/-! ## C2 — which attachments are skipped -/

/-- The analysis loop's initial mutable state. -/
def emptyAnalyzeState (start_counter : Nat) : AnalyzeState :=
  { images := [], videos := [], others := [], new_urls := []
    counter := start_counter + 1, found_media := 0, names := [] }

theorem analyzeBucketMem (history : List PyMessage) (s : List String) (a : Bool)
    (start : Nat) (cat : MediaCat) (u : String) :
    u ∈ dictKeys (bucketOf
        (history.foldl (stepMessage s a) (emptyAnalyzeState start, start, [])).1 cat) ↔
      urlOccurs history u ∧ notSkipped s a u ∧ classify u = cat := by
  rw [msg_fold_bucket_mem]
  have hbase : dictKeys (bucketOf (emptyAnalyzeState start) cat) = [] := by
    rcases cat <;> rfl
  rw [hbase]
  simp

/-- C2 (amended): in the analysis loop an attachment is skipped exactly
when `includeAlreadySeen` is off and its URL lies in the History Store's
seen set passed into the run — URLs categorized earlier in the same run
are not consulted.  A URL ends up in a category bucket (respectively in
the run's new-URL set) precisely when it occurs as an attachment of a
non-bot fetched message, survives that test, and the classifier puts it
in that category. -/
theorem analyze_skip_iff (history : List PyMessage) (scanned_urls : List String)
    (scan_all : Bool) (start_counter : Nat) (u : String) :
    (u ∈ dictKeys (analyze_messages_with_recovery history scanned_urls scan_all
          start_counter).images ↔
        urlOccurs history u ∧ notSkipped scanned_urls scan_all u ∧ classify u = .image) ∧
      (u ∈ dictKeys (analyze_messages_with_recovery history scanned_urls scan_all
          start_counter).videos ↔
        urlOccurs history u ∧ notSkipped scanned_urls scan_all u ∧ classify u = .video) ∧
      (u ∈ dictKeys (analyze_messages_with_recovery history scanned_urls scan_all
          start_counter).others ↔
        urlOccurs history u ∧ notSkipped scanned_urls scan_all u ∧ classify u = .other) ∧
      (u ∈ (analyze_messages_with_recovery history scanned_urls scan_all
          start_counter).new_urls ↔
        urlOccurs history u ∧ notSkipped scanned_urls scan_all u) := by
  refine ⟨?_, ?_, ?_, ?_⟩
  · exact analyzeBucketMem history scanned_urls scan_all start_counter MediaCat.image u
  · exact analyzeBucketMem history scanned_urls scan_all start_counter MediaCat.video u
  · exact analyzeBucketMem history scanned_urls scan_all start_counter MediaCat.other u
  · have h := msg_fold_new_urls_mem scanned_urls scan_all history
      (emptyAnalyzeState start_counter) start_counter [] u
    exact h.trans (by simp [emptyAnalyzeState])

/-- Counterexample to C2 as stated: two fetched messages carry the same
URL `u.bin`, the history seen set is empty and `includeAlreadySeen` is
off.  The claim's dedup set contains `u.bin` when the second attachment
is examined (it was categorized earlier in the same run), so the claim
predicts the second attachment is skipped: one categorization, one
assigned name, `found_media = 1`.  The code skips only on the history
set: both occurrences are categorized (`found_media = 2`), ordinals 1
and 2 are both assigned, and the bucket entry carries the ordinal-2
name. -/
theorem analyze_dedup_counterexample :
    (analyze_messages_with_recovery
        [⟨1, false, "a", ⟨2024, 1, 1, 0, 0, 0, 0, none⟩, [⟨"u.bin", 7⟩]⟩,
          ⟨2, false, "a", ⟨2024, 1, 1, 0, 0, 0, 0, none⟩, [⟨"u.bin", 7⟩]⟩]
        [] false 0).found_media = 2 ∧
      (analyze_messages_with_recovery
        [⟨1, false, "a", ⟨2024, 1, 1, 0, 0, 0, 0, none⟩, [⟨"u.bin", 7⟩]⟩,
          ⟨2, false, "a", ⟨2024, 1, 1, 0, 0, 0, 0, none⟩, [⟨"u.bin", 7⟩]⟩]
        [] false 0).names =
        ["0001_2024-01-01_00-00-00_a.bin", "0002_2024-01-01_00-00-00_a.bin"] ∧
      (analyze_messages_with_recovery
        [⟨1, false, "a", ⟨2024, 1, 1, 0, 0, 0, 0, none⟩, [⟨"u.bin", 7⟩]⟩,
          ⟨2, false, "a", ⟨2024, 1, 1, 0, 0, 0, 0, none⟩, [⟨"u.bin", 7⟩]⟩]
        [] false 0).others =
        [("u.bin", "0002_2024-01-01_00-00-00_a.bin")] := by
  refine ⟨by decide, by decide, by decide⟩

/-! ## C3 — ordinal continuation across a resume -/

theorem attach_fold_names (s : List String) (a : Bool) (m : PyMessage)
    (atts : List PyAttachment) :
    ∀ st : AnalyzeState,
      ∃ suffix : List String,
        (atts.foldl (stepAttachment s a m) st).names = st.names ++ suffix ∧
          (atts.foldl (stepAttachment s a m) st).counter = st.counter + suffix.length ∧
          (atts.foldl (stepAttachment s a m) st).found_media =
            st.found_media + suffix.length ∧
          ∀ i nm, suffix.get? i = some nm →
            ∃ restStr, nm = pad4 (st.counter + i) ++ restStr := by
  induction atts with
  | nil =>
    intro st
    refine ⟨[], by simp, by simp, by simp, ?_⟩
    intro i nm h
    simp at h
  | cons x rest ih =>
    intro st
    rw [List.foldl_cons]
    by_cases hskip : (!a && decide (x.url ∈ s)) = true
    · rw [stepAttachment_skip s a m st x hskip]
      exact ih st
    · have hskip' : (!a && decide (x.url ∈ s)) = false := by
        revert hskip
        cases (!a && decide (x.url ∈ s)) <;> simp
      obtain ⟨suf, hn, hc, hf, hp⟩ := ih (stepAttachment s a m st x)
      have hfields := stepAttachment_not_skip s a m st x hskip'
      refine ⟨mkAttachmentName m st.counter x :: suf, ?_, ?_, ?_, ?_⟩
      · rw [hn, hfields]
        simp
      · rw [hc, hfields]
        simp only [List.length_cons]
        omega
      · rw [hf, hfields]
        simp only [List.length_cons]
        omega
      · intro i nm hg
        cases i with
        | zero =>
          simp only [List.get?] at hg
          cases hg
          refine ⟨"_" ++ format_date m.createdAt ++ "_" ++ safe_string m.authorName ++
            "." ++ fileExtension x.url, ?_⟩
          simp [mkAttachmentName, String.append_assoc]
        | succ j =>
          simp only [List.get?] at hg
          obtain ⟨restStr, hr⟩ := hp j nm hg
          have hcnt : (stepAttachment s a m st x).counter = st.counter + 1 := by
            rw [hfields]
          rw [hcnt] at hr
          refine ⟨restStr, ?_⟩
          rw [hr]
          congr 1
          congr 1
          omega

theorem msg_fold_names (s : List String) (a : Bool) (ms : List PyMessage) :
    ∀ (st : AnalyzeState) (processed : Nat) (prog : List (Option Nat × Nat × Nat)),
      ∃ suffix : List String,
        (ms.foldl (stepMessage s a) (st, processed, prog)).1.names =
            st.names ++ suffix ∧
          (ms.foldl (stepMessage s a) (st, processed, prog)).1.counter =
            st.counter + suffix.length ∧
          (ms.foldl (stepMessage s a) (st, processed, prog)).1.found_media =
            st.found_media + suffix.length ∧
          ∀ i nm, suffix.get? i = some nm →
            ∃ restStr, nm = pad4 (st.counter + i) ++ restStr := by
  induction ms with
  | nil =>
    intro st processed prog
    refine ⟨[], by simp, by simp, by simp, ?_⟩
    intro i nm h
    simp at h
  | cons m rest ih =>
    intro st processed prog
    simp only [List.foldl_cons, stepMessage]
    by_cases helig : (!m.attachments.isEmpty && !m.authorBot) = true
    · rw [if_pos helig]
      obtain ⟨s1, h1n, h1c, h1f, h1p⟩ := attach_fold_names s a m m.attachments st
      obtain ⟨s2, h2n, h2c, h2f, h2p⟩ := ih (m.attachments.foldl (stepAttachment s a m) st)
        (processed + 1)
        (if (processed + 1) % 10 = 0 then
          prog ++ [(some m.id, processed + 1,
            (m.attachments.foldl (stepAttachment s a m) st).found_media)]
        else prog)
      refine ⟨s1 ++ s2, ?_, ?_, ?_, ?_⟩
      · rw [h2n, h1n, List.append_assoc]
      · rw [h2c, h1c, List.length_append]
        omega
      · rw [h2f, h1f, List.length_append]
        omega
      · intro i nm hg
        by_cases hi : i < s1.length
        · rw [List.get?_append hi] at hg
          exact h1p i nm hg
        · rw [List.get?_append_right (Nat.le_of_not_lt hi)] at hg
          obtain ⟨restStr, hr⟩ := h2p (i - s1.length) nm hg
          rw [h1c] at hr
          refine ⟨restStr, ?_⟩
          rw [hr]
          congr 1
          congr 1
          omega
    · rw [if_neg helig]
      exact ih st (processed + 1) (if (processed + 1) % 10 = 0 then
        prog ++ [(some m.id, processed + 1, st.found_media)] else prog)

/-- C3 (amended): after the analysis loop with start counter `p`
(`processedCount` on a resume), the ordinal counter equals
`p + 1 + found_media`, exactly one file name is generated per
categorized attachment, and the `i`-th generated name (0-based) begins
with the zero-padded ordinal `p + 1 + i` — numbering continues from
`processedCount + 1` instead of restarting at 1.  Consequently the
post-resume ordinals `p+1 … p+found` avoid the pre-interruption ordinals
`1 … found₀` exactly when `found₀ ≤ p`; because `p` counts messages
while ordinals count media, a pre-interruption segment with
multi-attachment messages can have `found₀ > p`, and the ranges then
overlap (see the counterexample). -/
theorem analyze_ordinal_continuation (history : List PyMessage)
    (scanned_urls : List String) (scan_all : Bool) (start_counter : Nat) :
    (analyze_messages_with_recovery history scanned_urls scan_all
        start_counter).counter =
      start_counter + 1 + (analyze_messages_with_recovery history scanned_urls scan_all
        start_counter).found_media ∧
    (analyze_messages_with_recovery history scanned_urls scan_all
        start_counter).names.length =
      (analyze_messages_with_recovery history scanned_urls scan_all
        start_counter).found_media ∧
    ∀ i nm, (analyze_messages_with_recovery history scanned_urls scan_all
        start_counter).names.get? i = some nm →
      ∃ restStr, nm = pad4 (start_counter + 1 + i) ++ restStr := by
  obtain ⟨suf, hn, hc, hf, hp⟩ := msg_fold_names scanned_urls scan_all history
    (emptyAnalyzeState start_counter) start_counter []
  have hn' : (analyze_messages_with_recovery history scanned_urls scan_all
      start_counter).names = suf := by
    show (history.foldl (stepMessage scanned_urls scan_all)
      (emptyAnalyzeState start_counter, start_counter, [])).1.names = suf
    rw [hn]
    rfl
  have hc' : (analyze_messages_with_recovery history scanned_urls scan_all
      start_counter).counter = start_counter + 1 + suf.length := hc
  have hf' : (analyze_messages_with_recovery history scanned_urls scan_all
      start_counter).found_media = suf.length := by
    have h0 : (analyze_messages_with_recovery history scanned_urls scan_all
        start_counter).found_media =
        (emptyAnalyzeState start_counter).found_media + suf.length := hf
    rw [h0]
    simp [emptyAnalyzeState]
  refine ⟨?_, ?_, ?_⟩
  · rw [hc', hf']
  · rw [hn', hf']
  · intro i nm hg
    rw [hn'] at hg
    exact hp i nm hg

/-- Witness for C3 (amended): a resume with `processedCount = 10` assigns
ordinal 11 to the first categorized attachment. -/
theorem analyze_ordinal_continuation_witness :
    (analyze_messages_with_recovery
        [⟨1, false, "a", ⟨2024, 1, 1, 0, 0, 0, 0, none⟩, [⟨"z.bin", 0⟩]⟩]
        [] false 10).counter =
      10 + 1 + (analyze_messages_with_recovery
        [⟨1, false, "a", ⟨2024, 1, 1, 0, 0, 0, 0, none⟩, [⟨"z.bin", 0⟩]⟩]
        [] false 10).found_media ∧
    ∃ restStr, "0011_2024-01-01_00-00-00_a.bin" = pad4 (10 + 1 + 0) ++ restStr := by
  have h := analyze_ordinal_continuation
    [⟨1, false, "a", ⟨2024, 1, 1, 0, 0, 0, 0, none⟩, [⟨"z.bin", 0⟩]⟩] [] false 10
  exact ⟨h.1, h.2.2 0 "0011_2024-01-01_00-00-00_a.bin" (by decide)⟩

/-- Counterexample to C3's no-overlap consequence: a scan of ten
messages carrying two attachments each consumes ordinals 1…20, while
the 10th-message checkpoint records `processed_count = 10` (its progress
call is `(some 10, 10, 20)`); in particular the name with ordinal 11 is
assigned.  A resume from that checkpoint restarts numbering at
`processedCount + 1 = 11` and generates the very same ordinal-11 file
name again: the pre-interruption and post-resume ordinals overlap. -/
theorem analyze_ordinal_overlap_counterexample :
    (analyze_messages_with_recovery
        ((List.range 10).map fun k =>
          (⟨k + 1, false, "a", ⟨2024, 1, 1, 0, 0, 0, 0, none⟩,
            [⟨"u.bin", 0⟩, ⟨"u.bin", 0⟩]⟩ : PyMessage))
        [] false 0).progress.head? = some (some 10, 10, 20) ∧
      "0011_2024-01-01_00-00-00_a.bin" ∈ (analyze_messages_with_recovery
        ((List.range 10).map fun k =>
          (⟨k + 1, false, "a", ⟨2024, 1, 1, 0, 0, 0, 0, none⟩,
            [⟨"u.bin", 0⟩, ⟨"u.bin", 0⟩]⟩ : PyMessage))
        [] false 0).names ∧
      (analyze_messages_with_recovery
        [⟨11, false, "a", ⟨2024, 1, 1, 0, 0, 0, 0, none⟩, [⟨"u.bin", 0⟩]⟩]
        [] false 10).names = ["0011_2024-01-01_00-00-00_a.bin"] := by
  refine ⟨by decide, by decide, by decide⟩

/-! ## C6 — the time-anchored fetch -/

/-- The claim's resume skip: drop everything up to and including the
message with the anchor id (everything, when the anchor is absent). -/
def dropThroughId (i : Nat) : List PyMessage → List PyMessage
  | [] => []
  | m :: rest => if m.id = i then rest else dropThroughId i rest

/-- The claim's resume skip for an optional anchor. -/
def resumeSkip (last_message_id : Option Nat) (ms : List PyMessage) : List PyMessage :=
  match last_message_id with
  | none => ms
  | some i => dropThroughId i ms

/-- The claim's collection stop: at most `limit` messages when `limit` is
truthy, everything otherwise. -/
def limitClamp (limit : Option Nat) (ms : List PyMessage) : List PyMessage :=
  if limitTruthy limit then ms.take (limit.getD 0) else ms

/-- The time-anchored fetch as C6 states it, on the raw newest-first
stream with no window: resume-skip, then the prefix of messages strictly
after the cutoff, clamped to `limit`. -/
def timeAnchoredClaim (stream : List PyMessage) (since_time : PyDateTime)
    (limit : Option Nat) (last_message_id : Option Nat) : List PyMessage :=
  limitClamp limit
    ((resumeSkip last_message_id stream).takeWhile (afterCutoff since_time))

/-- The same collection, applied — as the code does — to the
`2 × (limit or 500)` window of the stream. -/
def timeAnchoredWindowed (stream : List PyMessage) (since_time : PyDateTime)
    (limit : Option Nat) (last_message_id : Option Nat) : List PyMessage :=
  timeAnchoredClaim (stream.take (maxMessagesOf limit * 2)) since_time limit
    last_message_id

theorem sinceTimeLoop_cons_false (since_time : PyDateTime) (limit : Option Nat)
    (last_message_id : Option Nat) (m : PyMessage) (rest : List PyMessage) (n : Nat) :
    sinceTimeLoop since_time limit last_message_id (m :: rest) false n =
      if some m.id = last_message_id then
        sinceTimeLoop since_time limit last_message_id rest true n
      else sinceTimeLoop since_time limit last_message_id rest false n := rfl

theorem sinceTimeLoop_cons_true (since_time : PyDateTime) (limit : Option Nat)
    (last_message_id : Option Nat) (m : PyMessage) (rest : List PyMessage) (n : Nat) :
    sinceTimeLoop since_time limit last_message_id (m :: rest) true n =
      if !afterCutoff since_time m then []
      else if limitTruthy limit && n + 1 ≥ limit.getD 0 then [m]
      else m :: sinceTimeLoop since_time limit last_message_id rest true (n + 1) := rfl

theorem sinceTimeLoop_skip (since_time : PyDateTime) (limit : Option Nat) (i : Nat) :
    ∀ (l : List PyMessage) (n : Nat),
      sinceTimeLoop since_time limit (some i) l false n =
        sinceTimeLoop since_time limit (some i) (dropThroughId i l) true n := by
  intro l
  induction l with
  | nil =>
    intro n
    rfl
  | cons m rest ih =>
    intro n
    rw [sinceTimeLoop_cons_false]
    by_cases h : m.id = i
    · rw [if_pos (by rw [h]), show dropThroughId i (m :: rest) = rest from by
        simp [dropThroughId, h]]
    · rw [if_neg (by simp [h]), show dropThroughId i (m :: rest) = dropThroughId i rest
        from by simp [dropThroughId, h]]
      exact ih n

theorem sinceTimeLoop_collect (since_time : PyDateTime) (limit : Option Nat)
    (last_message_id : Option Nat) :
    ∀ (l : List PyMessage) (n : Nat),
      (limitTruthy limit = true → n < limit.getD 0) →
      sinceTimeLoop since_time limit last_message_id l true n =
        (if limitTruthy limit = true then
          (l.takeWhile (afterCutoff since_time)).take (limit.getD 0 - n)
        else l.takeWhile (afterCutoff since_time)) := by
  intro l
  induction l with
  | nil =>
    intro n hn
    simp [sinceTimeLoop]
  | cons m rest ih =>
    intro n hn
    rw [sinceTimeLoop_cons_true]
    by_cases hA : afterCutoff since_time m = true
    · rw [if_neg (by simp [hA]), List.takeWhile_cons_of_pos hA]
      by_cases hT : limitTruthy limit = true
      · have hnL := hn hT
        by_cases hC : limit.getD 0 ≤ n + 1
        · rw [if_pos (by simp only [hT, Bool.true_and]; simpa using hC), if_pos hT]
          have h1 : limit.getD 0 - n = 1 := by omega
          rw [h1]
          rfl
        · rw [if_neg (by simp only [hT, Bool.true_and]; simpa using hC),
            ih (n + 1) (fun _ => by omega), if_pos hT, if_pos hT]
          have h2 : limit.getD 0 - n = (limit.getD 0 - (n + 1)) + 1 := by omega
          rw [h2, List.take_succ_cons]
      · have hT' : limitTruthy limit = false := by
          revert hT
          cases limitTruthy limit <;> simp
        rw [if_neg (by simp [hT']), ih (n + 1) (fun hc => absurd hc (by simp [hT'])),
          if_neg (by simp [hT']), if_neg (by simp [hT'])]
    · have hA' : afterCutoff since_time m = false := by
        revert hA
        cases afterCutoff since_time m <;> simp
      rw [if_pos (by simp [hA']), List.takeWhile_cons_of_neg (by simp [hA'])]
      simp

/-- C6 (amended): `get_messages_since_time` equals the claim's
description applied to the `2 × (limit or 500)` prefix window of the
stream: within that window, drop everything up to and including
`afterMessageId` (yielding nothing when the anchor is not in the
window), then return exactly the prefix of subsequent messages whose
zone-stripped timestamps are strictly after `sinceTimestamp`, stopping
at the first message at-or-before the cutoff or — when `limit` is truthy
— upon reaching `limit` collected messages. -/
theorem get_messages_since_time_windowed (stream : List PyMessage)
    (since_time : PyDateTime) (limit : Option Nat) (last_message_id : Option Nat) :
    get_messages_since_time stream since_time limit last_message_id =
      timeAnchoredWindowed stream since_time limit last_message_id := by
  have h0 : limitTruthy limit = true → 0 < limit.getD 0 := by
    cases limit with
    | none => simp [limitTruthy]
    | some k => cases k <;> simp [limitTruthy]
  unfold get_messages_since_time timeAnchoredWindowed timeAnchoredClaim limitClamp
    resumeSkip
  cases last_message_id with
  | none =>
    rw [show (Option.isNone (none : Option Nat)) = true from rfl,
      sinceTimeLoop_collect since_time limit none _ 0 h0]
    simp
  | some i =>
    rw [show (Option.isNone (some i)) = false from rfl, sinceTimeLoop_skip,
      sinceTimeLoop_collect since_time limit (some i) _ 0 h0]
    simp

/-- Counterexample to C6 as stated: with `limit = 1` the code requests a
window of only `2·1` raw messages; an anchor sitting at the window's
edge leaves nothing to collect and the fetch returns `[]`, while the
claim's description over the whole newest-first stream (resume-skip,
then the strictly-after prefix, clamped to the limit) returns the third
message. -/
theorem get_messages_since_time_counterexample :
    get_messages_since_time
        [⟨1, false, "u", ⟨2024, 1, 3, 0, 0, 0, 0, none⟩, []⟩,
          ⟨2, false, "u", ⟨2024, 1, 2, 0, 0, 0, 0, none⟩, []⟩,
          ⟨3, false, "u", ⟨2024, 1, 1, 12, 0, 0, 0, none⟩, []⟩]
        ⟨2024, 1, 1, 0, 0, 0, 0, none⟩ (some 1) (some 2) = [] ∧
      timeAnchoredClaim
        [⟨1, false, "u", ⟨2024, 1, 3, 0, 0, 0, 0, none⟩, []⟩,
          ⟨2, false, "u", ⟨2024, 1, 2, 0, 0, 0, 0, none⟩, []⟩,
          ⟨3, false, "u", ⟨2024, 1, 1, 12, 0, 0, 0, none⟩, []⟩]
        ⟨2024, 1, 1, 0, 0, 0, 0, none⟩ (some 1) (some 2) =
        [⟨3, false, "u", ⟨2024, 1, 1, 12, 0, 0, 0, none⟩, []⟩] := by
  exact ⟨by decide, by decide⟩

/-! ## C1 — the classifier -/

theorem toLowerChar_toNat_lt (n : Nat) (h : n < 55296) : (Char.ofNat n).toNat = n := by
  unfold Char.ofNat
  rw [dif_pos (Or.inl h)]
  rfl

theorem toLowerChar_digit (c : Char) (h : isDigitChar c = true) : toLowerChar c = c := by
  unfold toLowerChar
  unfold isDigitChar at h
  rw [if_neg]
  intro hc
  simp only [Bool.and_eq_true, decide_eq_true_eq] at h
  omega

theorem toLowerChar_allowed (c : Char) (h : allowedChar c = true) : toLowerChar c = c := by
  unfold toLowerChar
  rw [if_neg]
  intro hc
  unfold allowedChar isLowerAlphaChar isDigitChar at h
  simp only [Bool.or_eq_true, Bool.and_eq_true, decide_eq_true_eq] at h
  rcases h with ((((⟨h1, h2⟩ | ⟨h1, h2⟩) | rfl) | rfl) | rfl)
  · omega
  · omega
  · exact absurd hc (by decide)
  · exact absurd hc (by decide)
  · exact absurd hc (by decide)

theorem toLowerChar_idem (c : Char) : toLowerChar (toLowerChar c) = toLowerChar c := by
  unfold toLowerChar
  by_cases h : 65 ≤ c.toNat ∧ c.toNat ≤ 90
  · rw [if_pos h]
    have ht : (Char.ofNat (c.toNat + 32)).toNat = c.toNat + 32 :=
      toLowerChar_toNat_lt _ (by omega)
    rw [if_neg (by rw [ht]; omega)]
  · rw [if_neg h, if_neg h]

theorem lowerData_idem (l : List Char) : lowerData (lowerData l) = lowerData l := by
  unfold lowerData
  rw [List.map_map]
  exact List.map_congr_left fun c _ => toLowerChar_idem c

theorem lowerData_fix (l : List Char) (h : ∀ c ∈ l, toLowerChar c = c) :
    lowerData l = l := by
  unfold lowerData
  exact List.map_congr_left h |>.trans (List.map_id l)

theorem toLowerChar_ne_nl (c : Char) (h : c ≠ '\n') : toLowerChar c ≠ '\n' := by
  unfold toLowerChar
  by_cases hc : 65 ≤ c.toNat ∧ c.toNat ≤ 90
  · rw [if_pos hc]
    intro he
    have h2 : c.toNat + 32 = '\n'.toNat := by
      have h1 := congrArg Char.toNat he
      rwa [toLowerChar_toNat_lt _ (by omega)] at h1
    have h3 : '\n'.toNat = 10 := by decide
    omega
  · rw [if_neg hc]
    exact h

theorem dropLit_append (p s : List Char) : dropLit p (p ++ s) = some s := by
  induction p with
  | nil => rfl
  | cons c rest ih => simpa [dropLit] using ih

theorem dropLit_eq_some (p : List Char) :
    ∀ s r, dropLit p s = some r ↔ s = p ++ r := by
  induction p with
  | nil =>
    intro s r
    simp [dropLit, eq_comm]
  | cons c rest ih =>
    intro s r
    cases s with
    | nil => simp [dropLit]
    | cons c' s' =>
      by_cases h : c = c'
      · subst h
        rw [show dropLit (c :: rest) (c :: s') = dropLit rest s' from by simp [dropLit]]
        rw [ih s' r]
        simp
      · rw [show dropLit (c :: rest) (c' :: s') = none from by simp [dropLit, h]]
        simp [Ne.symm h, h]

theorem dropWhile_digit_append (l rest : List Char)
    (h : ∀ c ∈ l, isDigitChar c = true) :
    (l ++ rest).dropWhile isDigitChar = rest.dropWhile isDigitChar := by
  induction l with
  | nil => rfl
  | cons c l' ih =>
    rw [List.cons_append, List.dropWhile_cons_of_pos (h c (List.mem_cons_self _ _))]
    exact ih fun c' hc' => h c' (List.mem_cons_of_mem _ hc')

theorem dotStarEnd_of_no_nl (t : List Char) (h : ∀ c ∈ t, c ≠ '\n') :
    dotStarEnd t = true := by
  induction t with
  | nil => rfl
  | cons c t' ih =>
    unfold dotStarEnd
    rw [if_neg (h c (List.mem_cons_self _ _))]
    exact ih fun c' hc' => h c' (List.mem_cons_of_mem _ hc')

theorem optQueryEnd_dot_cons (l : List Char) : optQueryEnd ('.' :: l) = false := rfl

theorem allowed_no_special (c : Char) (h : allowedChar c = true) :
    c ≠ '?' ∧ c ≠ '\n' := by
  constructor <;> intro hc <;> subst hc <;> exact absurd h (by decide)

theorem optQueryEnd_allowed_cons (c : Char) (l : List Char)
    (h : allowedChar c = true) : optQueryEnd (c :: l) = false := by
  show (if c = '?' then dotStarEnd l else decide (c = '\n') && l.isEmpty) = false
  rw [if_neg (allowed_no_special c h).1]
  simp [(allowed_no_special c h).2]

theorem extScan_of_mem (exts : List (List Char)) (e : List Char) (he : e ∈ exts)
    (r : List Char) (hr : optQueryEnd r = true) : extScan exts (e ++ r) = true := by
  unfold extScan
  rw [List.any_eq_true]
  refine ⟨e, he, ?_⟩
  simp [dropLit_append, hr]

theorem fnameScan_append_ext (exts : List (List Char)) :
    ∀ fn : List Char, (∀ c ∈ fn, allowedChar c = true) →
      ∀ e ∈ exts, ∀ r : List Char, optQueryEnd r = true →
        fnameScan exts (fn ++ '.' :: (e ++ r)) = true := by
  intro fn
  induction fn with
  | nil =>
    intro _ e he r hr
    have h1 := extScan_of_mem exts e he r hr
    simp [fnameScan, h1]
  | cons c fn' ih =>
    intro hall e he r hr
    have hc := hall c (List.mem_cons_self _ _)
    have h1 := ih (fun c' hc' => hall c' (List.mem_cons_of_mem _ hc')) e he r hr
    simp [fnameScan, hc, h1]

theorem extScan_iff (exts : List (List Char)) (s : List Char) :
    extScan exts s = true ↔
      ∃ e ∈ exts, ∃ r, s = e ++ r ∧ optQueryEnd r = true := by
  unfold extScan
  rw [List.any_eq_true]
  constructor
  · rintro ⟨e, he, hm⟩
    cases hdrop : dropLit e s with
    | none =>
      rw [hdrop] at hm
      exact absurd hm (by simp)
    | some r =>
      rw [hdrop] at hm
      simp only at hm
      exact ⟨e, he, r, (dropLit_eq_some e s r).mp hdrop, hm⟩
  · rintro ⟨e, he, r, rfl, hr⟩
    refine ⟨e, he, ?_⟩
    simp [dropLit_append, hr]

theorem fnameScan_iff (exts : List (List Char)) :
    ∀ s : List Char,
      fnameScan exts s = true ↔
        ∃ fn r, s = fn ++ '.' :: r ∧ (∀ c ∈ fn, allowedChar c = true) ∧
          extScan exts r = true := by
  intro s
  induction s with
  | nil =>
    simp [fnameScan]
  | cons c rest ih =>
    show ((if c = '.' then extScan exts rest else false) ||
      (allowedChar c && fnameScan exts rest)) = true ↔ _
    rw [Bool.or_eq_true, Bool.and_eq_true]
    constructor
    · rintro (h1 | ⟨hc, h2⟩)
      · by_cases hc : c = '.'
        · rw [if_pos hc] at h1
          exact ⟨[], rest, by rw [hc]; rfl, by simp, h1⟩
        · rw [if_neg hc] at h1
          exact absurd h1 (by simp)
      · obtain ⟨fn, r, rfl, hall, hext⟩ := ih.mp h2
        exact ⟨c :: fn, r, rfl, by
          intro c' hc'
          rcases List.mem_cons.mp hc' with rfl | hc''
          · exact hc
          · exact hall c' hc'', hext⟩
    · rintro ⟨fn, r, heq, hall, hext⟩
      cases fn with
      | nil =>
        simp only [List.nil_append] at heq
        rcases heq with ⟨rfl, rfl⟩
        left
        rw [if_pos rfl]
        exact hext
      | cons c0 fn' =>
        simp only [List.cons_append, List.cons.injEq] at heq
        rcases heq with ⟨rfl, heq'⟩
        right
        refine ⟨hall c (List.mem_cons_self _ _), ?_⟩
        exact ih.mpr ⟨fn', r, heq', fun c' hc' => hall c' (List.mem_cons_of_mem _ hc'),
          hext⟩

theorem matchMedia_construct (exts : List (List Char)) (d1 d2 tail : List Char)
    (hd1 : ∀ c ∈ d1, isDigitChar c = true) (hd2 : ∀ c ∈ d2, isDigitChar c = true) :
    matchMedia exts (cdnLit ++ (d1 ++ '/' :: (d2 ++ '/' :: tail))) =
      fnameScan exts tail := by
  unfold matchMedia
  rw [dropLit_append]
  show (match (d1 ++ '/' :: (d2 ++ '/' :: tail)).dropWhile isDigitChar with
    | [] => false
    | c :: s2 =>
      if c = '/' then
        match s2.dropWhile isDigitChar with
        | [] => false
        | c' :: s3 => if c' = '/' then fnameScan exts s3 else false
      else false) = fnameScan exts tail
  rw [dropWhile_digit_append d1 _ hd1,
    List.dropWhile_cons_of_neg (show ¬isDigitChar '/' = true by decide)]
  show (if '/' = '/' then
    (match (d2 ++ '/' :: tail).dropWhile isDigitChar with
      | [] => false
      | c' :: s3 => if c' = '/' then fnameScan exts s3 else false)
    else false) = fnameScan exts tail
  rw [if_pos rfl, dropWhile_digit_append d2 _ hd2,
    List.dropWhile_cons_of_neg (show ¬isDigitChar '/' = true by decide)]
  show (if '/' = '/' then fnameScan exts tail else false) = fnameScan exts tail
  rw [if_pos rfl]

/-- The URL shape the two regexes accept:
`https://cdn.discordapp.com/attachments/{d1}/{d2}/{fname}.{ext}{q}`. -/
def mkCdnUrl (d1 d2 fname ext q : String) : String :=
  "https://cdn.discordapp.com/attachments/" ++ d1 ++ "/" ++ d2 ++ "/" ++
    fname ++ "." ++ ext ++ q

theorem mkCdnUrl_data (d1 d2 fname ext q : String) :
    (mkCdnUrl d1 d2 fname ext q).data =
      cdnLit ++ (d1.data ++ '/' :: (d2.data ++ '/' ::
        (fname.data ++ '.' :: (ext.data ++ q.data)))) := by
  unfold mkCdnUrl cdnLit
  simp [String.data_append, List.append_assoc]

theorem lowerData_cdn (d1 d2 fn e q : List Char)
    (hd1 : ∀ c ∈ d1, isDigitChar c = true) (hd2 : ∀ c ∈ d2, isDigitChar c = true)
    (hf : ∀ c ∈ fn, allowedChar c = true) (he : lowerData e = e) :
    lowerData (cdnLit ++ (d1 ++ '/' :: (d2 ++ '/' :: (fn ++ '.' :: (e ++ q))))) =
      cdnLit ++ (d1 ++ '/' :: (d2 ++ '/' :: (fn ++ '.' :: (e ++ lowerData q)))) := by
  have hcdn : lowerData cdnLit = cdnLit := rfl
  have hslash : toLowerChar '/' = '/' := rfl
  have hdot : toLowerChar '.' = '.' := rfl
  have h1 : lowerData d1 = d1 := lowerData_fix d1 fun c hc => toLowerChar_digit c (hd1 c hc)
  have h2 : lowerData d2 = d2 := lowerData_fix d2 fun c hc => toLowerChar_digit c (hd2 c hc)
  have h3 : lowerData fn = fn := lowerData_fix fn fun c hc => toLowerChar_allowed c (hf c hc)
  unfold lowerData at *
  simp only [List.map_append, List.map_cons, hcdn, hslash, hdot, h1, h2, h3, he]

theorem extScan_inner_false (exts : List (List Char))
    (hdot : ∀ e ∈ exts, '.' ∉ e) (fn' tail : List Char)
    (hfn : ∀ c ∈ fn', allowedChar c = true) :
    extScan exts (fn' ++ '.' :: tail) = false := by
  by_cases h : extScan exts (fn' ++ '.' :: tail) = true
  · exfalso
    obtain ⟨e, he, r, heq, hr⟩ := (extScan_iff _ _).mp h
    rcases List.append_eq_append_iff.mp heq with ⟨w, hw1, hw2⟩ | ⟨w, hw1, hw2⟩
    · cases w with
      | nil =>
        simp only [List.append_nil, List.nil_append] at hw1 hw2
        rw [← hw2, optQueryEnd_dot_cons] at hr
        exact Bool.noConfusion hr
      | cons c w' =>
        have hc : c = '.' := by
          have := hw2
          simp only [List.cons_append, List.cons.injEq] at this
          exact this.1.symm
        subst hc
        exact hdot e he (by rw [hw1]; exact List.mem_append_right _ (List.mem_cons_self _ _))
    · cases w with
      | nil =>
        simp only [List.append_nil, List.nil_append] at hw1 hw2
        rw [hw2, optQueryEnd_dot_cons] at hr
        exact Bool.noConfusion hr
      | cons c w'' =>
        have hcmem : c ∈ fn' := by
          rw [hw1]
          exact List.mem_append_right _ (List.mem_cons_self _ _)
        rw [hw2, List.cons_append, optQueryEnd_allowed_cons c _ (hfn c hcmem)] at hr
        exact Bool.noConfusion hr
  · revert h
    cases extScan exts (fn' ++ '.' :: tail) <;> simp

theorem fnameScan_image_false_on_video (ve : List Char)
    (hve : ve ∈ videoExts.map String.data) (q : List Char)
    (hq : q = [] ∨ ∃ t, q = '?' :: t) :
    ∀ fn : List Char, (∀ c ∈ fn, allowedChar c = true) →
      fnameScan (imageExts.map String.data) (fn ++ '.' :: (ve ++ q)) = false := by
  intro fn
  induction fn with
  | nil =>
    intro _
    rcases hq with rfl | ⟨t, rfl⟩ <;> (fin_cases hve <;> rfl)
  | cons c fn' ih =>
    intro hall
    have hc := hall c (List.mem_cons_self _ _)
    have htail := ih fun c' hc' => hall c' (List.mem_cons_of_mem _ hc')
    show ((if c = '.' then extScan (imageExts.map String.data)
        (fn' ++ '.' :: (ve ++ q)) else false) ||
      (allowedChar c && fnameScan (imageExts.map String.data)
        (fn' ++ '.' :: (ve ++ q)))) = false
    by_cases hcd : c = '.'
    · rw [if_pos hcd]
      have hext := extScan_inner_false (imageExts.map String.data) (by decide) fn'
        (ve ++ q) fun c' hc' => hall c' (List.mem_cons_of_mem _ hc')
      simp [hext, htail]
    · rw [if_neg hcd]
      simp [htail]

theorem lowerData_ext_image (ext : String) (h : ext ∈ imageExts) :
    lowerData ext.data = ext.data := by
  fin_cases h <;> rfl

theorem lowerData_ext_video (ext : String) (h : ext ∈ videoExts) :
    lowerData ext.data = ext.data := by
  fin_cases h <;> rfl

theorem optQueryEnd_lower_query (q : String)
    (hq : q = "" ∨ ∃ t : String, q = "?" ++ t ∧ ∀ c ∈ t.data, c ≠ '\n') :
    optQueryEnd (lowerData q.data) = true := by
  rcases hq with rfl | ⟨t, rfl, ht⟩
  · rfl
  · have hdata : ("?" ++ t).data = '?' :: t.data := by
      rw [String.data_append]
      rfl
    rw [hdata]
    show optQueryEnd (toLowerChar '?' :: lowerData t.data) = true
    show dotStarEnd (lowerData t.data) = true
    refine dotStarEnd_of_no_nl _ fun c hc => ?_
    obtain ⟨c0, hc0, rfl⟩ := List.mem_map.mp hc
    exact toLowerChar_ne_nl c0 (ht c0 hc0)

theorem lower_query_shape (q : String)
    (hq : q = "" ∨ ∃ t : String, q = "?" ++ t ∧ ∀ c ∈ t.data, c ≠ '\n') :
    lowerData q.data = [] ∨ ∃ tl, lowerData q.data = '?' :: tl := by
  rcases hq with rfl | ⟨t, rfl, -⟩
  · exact Or.inl rfl
  · refine Or.inr ⟨lowerData t.data, ?_⟩
    have hdata : ("?" ++ t).data = '?' :: t.data := by
      rw [String.data_append]
      rfl
    rw [hdata]
    rfl

/-- A character list of the exact shape the anchored regexes accept:
the literal cdn prefix, two digit runs with their slashes, a file-name
segment over the allowed character class, a dot, an extension from the
alternation list, and a tail accepted by `(\?.*)?$` (empty, a query, or
— Python `$` semantics — a single trailing newline). -/
def cdnMatch (exts : List (List Char)) (l : List Char) : Prop :=
  ∃ d1 d2 fn e r,
    l = cdnLit ++ (d1 ++ '/' :: (d2 ++ '/' :: (fn ++ '.' :: (e ++ r)))) ∧
      (∀ c ∈ d1, isDigitChar c = true) ∧ (∀ c ∈ d2, isDigitChar c = true) ∧
      (∀ c ∈ fn, allowedChar c = true) ∧ e ∈ exts ∧ optQueryEnd r = true

theorem matchMedia_some (exts : List (List Char)) (l s1 : List Char)
    (hdl : dropLit cdnLit l = some s1) :
    matchMedia exts l =
      (match s1.dropWhile isDigitChar with
        | [] => false
        | c :: s2 =>
          if c = '/' then
            match s2.dropWhile isDigitChar with
            | [] => false
            | c' :: s3 => if c' = '/' then fnameScan exts s3 else false
          else false) := by
  unfold matchMedia
  rw [hdl]

theorem matchMedia_iff (exts : List (List Char)) (l : List Char) :
    matchMedia exts l = true ↔ cdnMatch exts l := by
  constructor
  · intro h
    cases hdl : dropLit cdnLit l with
    | none =>
      unfold matchMedia at h
      rw [hdl] at h
      exact absurd (show false = true from h) Bool.noConfusion
    | some s1 =>
      rw [matchMedia_some exts l s1 hdl] at h
      have hs : l = cdnLit ++ s1 := (dropLit_eq_some _ _ _).mp hdl
      cases hdw1 : s1.dropWhile isDigitChar with
      | nil =>
        rw [hdw1] at h
        exact absurd (show false = true from h) Bool.noConfusion
      | cons c s2 =>
        rw [hdw1] at h
        have h2 : (if c = '/' then
            (match s2.dropWhile isDigitChar with
              | [] => false
              | c' :: s3 => if c' = '/' then fnameScan exts s3 else false)
          else false) = true := h
        by_cases hc : c = '/'
        · subst hc
          rw [if_pos rfl] at h2
          cases hdw2 : s2.dropWhile isDigitChar with
          | nil =>
            rw [hdw2] at h2
            exact absurd (show false = true from h2) Bool.noConfusion
          | cons c' s3 =>
            rw [hdw2] at h2
            have h3 : (if c' = '/' then fnameScan exts s3 else false) = true := h2
            by_cases hc' : c' = '/'
            · subst hc'
              rw [if_pos rfl] at h3
              obtain ⟨fn, r0, hs3, hfn, hext⟩ := (fnameScan_iff exts s3).mp h3
              obtain ⟨e, he, rest, hr0, hq⟩ := (extScan_iff exts r0).mp hext
              refine ⟨s1.takeWhile isDigitChar, s2.takeWhile isDigitChar, fn, e, rest,
                ?_, fun c hm => List.mem_takeWhile_imp hm,
                fun c hm => List.mem_takeWhile_imp hm, hfn, he, hq⟩
              have h3' : s3 = fn ++ '.' :: (e ++ rest) := by rw [hs3, hr0]
              have h2' : s2 = s2.takeWhile isDigitChar ++
                  '/' :: (fn ++ '.' :: (e ++ rest)) := by
                conv_lhs => rw [← List.takeWhile_append_dropWhile isDigitChar s2]
                rw [hdw2, h3']
              have h1' : s1 = s1.takeWhile isDigitChar ++ '/' :: s2 := by
                conv_lhs => rw [← List.takeWhile_append_dropWhile isDigitChar s1]
                rw [hdw1]
              rw [hs]
              congr 1
              conv_lhs => rw [h1', h2']
            · rw [if_neg hc'] at h3
              exact absurd (show false = true from h3) Bool.noConfusion
        · rw [if_neg hc] at h2
          exact absurd (show false = true from h2) Bool.noConfusion
  · rintro ⟨d1, d2, fn, e, r, rfl, hd1, hd2, hfn, he, hr⟩
    rw [matchMedia_construct exts d1 d2 _ hd1 hd2]
    exact fnameScan_append_ext exts fn hfn e he r hr

/-- Counterexample to C1 as stated: the regexes anchor the whole URL to
the literal host and path `https://cdn.discordapp.com/attachments/…`, so
the claim's own example `https://host/a/1/2/foo.PNG` — whose file-name
segment is drawn from the allowed character set and ends in `.png` — is
classified Other, not Image. -/
theorem classify_host_counterexample :
    classify "https://host/a/1/2/foo.PNG" = MediaCat.other ∧
      is_image "https://host/a/1/2/foo.PNG" = false := by
  exact ⟨by decide, by decide⟩

/-- C1 (amended): the classifier is total and case-insensitive, but the
two matchers accept exactly the anchored shape
`https://cdn.discordapp.com/attachments/<digits>/<digits>/<fname>.<ext><tail>`
(file-name segment over `[a-z0-9_.-]`, extension from the respective
allowlist, tail empty or a query — with, per Python `$`, one trailing
newline tolerated).  Constructively, an image extension on that shape
yields Image and a video extension yields Video; conversely `is_image`
and `is_video` hold only on that shape (`cdnMatch`), so every other URL
— a recognized extension on any other host/path shape, a malformed
file-name segment, or an unrecognized extension — yields Other. -/
theorem classify_cdn_amended :
    (∀ s : String, classify s = classify ⟨lowerData s.data⟩) ∧
      (∀ d1 d2 fname ext q : String,
        (∀ c ∈ d1.data, isDigitChar c = true) →
        (∀ c ∈ d2.data, isDigitChar c = true) →
        (∀ c ∈ fname.data, allowedChar c = true) →
        (q = "" ∨ ∃ t : String, q = "?" ++ t ∧ ∀ c ∈ t.data, c ≠ '\n') →
        (ext ∈ imageExts → classify (mkCdnUrl d1 d2 fname ext q) = .image) ∧
          (ext ∈ videoExts → classify (mkCdnUrl d1 d2 fname ext q) = .video)) ∧
      (∀ s : String,
        is_image s = true ↔ cdnMatch (imageExts.map String.data) (lowerData s.data)) ∧
      (∀ s : String,
        is_video s = true ↔ cdnMatch (videoExts.map String.data) (lowerData s.data)) ∧
      (∀ s : String, ¬cdnMatch (imageExts.map String.data) (lowerData s.data) →
        ¬cdnMatch (videoExts.map String.data) (lowerData s.data) →
        classify s = .other) ∧
      classify (mkCdnUrl "123" "456" "foo" "exe" "") = .other := by
  refine ⟨?_, ?_, fun s => matchMedia_iff _ _, fun s => matchMedia_iff _ _, ?_, by decide⟩
  · intro s
    unfold classify is_image is_video
    rw [show (String.mk (lowerData s.data)).data = lowerData s.data from rfl,
      lowerData_idem]
  · intro d1 d2 fname ext q hd1 hd2 hf hq
    have hoqe := optQueryEnd_lower_query q hq
    constructor
    · intro hie
      have himg : is_image (mkCdnUrl d1 d2 fname ext q) = true := by
        unfold is_image
        rw [mkCdnUrl_data,
          lowerData_cdn _ _ _ _ _ hd1 hd2 hf (lowerData_ext_image ext hie),
          matchMedia_construct _ _ _ _ hd1 hd2]
        exact fnameScan_append_ext _ fname.data hf ext.data
          (List.mem_map_of_mem _ hie) _ hoqe
      simp [classify, himg]
    · intro hve
      have himg : is_image (mkCdnUrl d1 d2 fname ext q) = false := by
        unfold is_image
        rw [mkCdnUrl_data,
          lowerData_cdn _ _ _ _ _ hd1 hd2 hf (lowerData_ext_video ext hve),
          matchMedia_construct _ _ _ _ hd1 hd2]
        exact fnameScan_image_false_on_video ext.data (List.mem_map_of_mem _ hve)
          _ (lower_query_shape q hq) fname.data hf
      have hvid : is_video (mkCdnUrl d1 d2 fname ext q) = true := by
        unfold is_video
        rw [mkCdnUrl_data,
          lowerData_cdn _ _ _ _ _ hd1 hd2 hf (lowerData_ext_video ext hve),
          matchMedia_construct _ _ _ _ hd1 hd2]
        exact fnameScan_append_ext _ fname.data hf ext.data
          (List.mem_map_of_mem _ hve) _ hoqe
      simp [classify, himg, hvid]
  · intro s h1 h2
    have hi : ¬is_image s = true := fun hb => h1 ((matchMedia_iff _ _).mp hb)
    have hv : ¬is_video s = true := fun hb => h2 ((matchMedia_iff _ _).mp hb)
    unfold classify
    rw [if_neg hi, if_neg hv]

/-- Witness for C1 (amended): a cdn-hosted image URL with a query, a
cdn-hosted video URL, the case-insensitivity conjunct at an upper-case
cdn URL, and the every-other-URL clause at a non-cdn host carrying a
recognized extension. -/
theorem classify_cdn_amended_witness :
    classify (mkCdnUrl "123" "456" "foo" "png" "?x=1") = MediaCat.image ∧
      classify (mkCdnUrl "" "7" "my-file.v2" "webm" "") = MediaCat.video ∧
      classify "https://cdn.discordapp.com/attachments/123/456/foo.PNG" =
        classify
          ⟨lowerData "https://cdn.discordapp.com/attachments/123/456/foo.PNG".data⟩ ∧
      classify "https://example.com/pic.jpg" = MediaCat.other := by
  obtain ⟨hlower, hmain, hiffI, hiffV, hother, -⟩ := classify_cdn_amended
  refine ⟨?_, ?_, hlower _, ?_⟩
  · exact (hmain "123" "456" "foo" "png" "?x=1" (by decide) (by decide) (by decide)
      (Or.inr ⟨"x=1", rfl, by decide⟩)).1 (by decide)
  · exact (hmain "" "7" "my-file.v2" "webm" "" (by decide) (by decide) (by decide)
      (Or.inl rfl)).2 (by decide)
  · exact hother "https://example.com/pic.jpg"
      (fun hc => absurd ((matchMedia_iff _ _).mpr hc) (by decide))
      (fun hc => absurd ((matchMedia_iff _ _).mpr hc) (by decide))
